import Mathlib
/-!
# Verification of the YotsubaCore source (`src-tauri/src/lib.rs`)

A shallow embedding of the program's pure core into Lean 4, together with
theorems settling the frozen specification claims.

JSON values (`serde_json::Value`) are modelled by `JVal`, with objects as
association lists (serde's map semantics: `get` looks a key up, `insert`
replaces the value of an existing key or adds a new binding).  Byte strings
are `List Nat` with explicit `< 256` bounds.  File and process I/O is kept
at the boundary: functions receive the data the Rust code would read
(profile document, stored active tag, log-file content, parsed lines) and
return the data it would write.
-/
/-- Model of `serde_json::Value`. -/
inductive JVal where
  | null
  | bool (b : Bool)
  | num (n : Int)
  | str (s : String)
  | arr (items : List JVal)
  | obj (fields : List (String × JVal))

/-- `Value::get(key)` on an object (returns `None` on non-objects). -/
def jGet (v : JVal) (key : String) : Option JVal :=
  match v with
  | .obj fields => fields.lookup key
  | _ => none

/-- `v.get(key).and_then(Value::as_str)`. -/
def jGetStr (v : JVal) (key : String) : Option String :=
  match jGet v key with
  | some (.str s) => some s
  | _ => none

/-- Map `insert` on an object's field list: replace the value of an existing
key, or append a new binding. -/
def objInsert (fields : List (String × JVal)) (key : String) (val : JVal) :
    List (String × JVal) :=
  if (fields.lookup key).isSome then
    fields.map (fun p => if p.1 = key then (key, val) else p)
  else
    fields ++ [(key, val)]

/-- `value[key] = json!(x)` on an object (`Value::index_mut` panics on
non-objects; every use in the source indexes a value known to be an
object, so the non-object case is left as the identity). -/
def jSet (v : JVal) (key : String) (val : JVal) : JVal :=
  match v with
  | .obj fields => .obj (objInsert fields key val)
  | other => other

/-- Replace the element at index `i` (out-of-range: unchanged). -/
def modifyIdx (l : List JVal) (i : Nat) (f : JVal → JVal) : List JVal :=
  match l, i with
  | [], _ => []
  | x :: rest, 0 => f x :: rest
  | x :: rest, i + 1 => x :: modifyIdx rest i f

/-! ## Decimal representation of naturals

`unique_tag` builds candidate tags `base-2`, `base-3`, … with Rust's
`format!("{base}-{index}")`; its freshness argument needs injectivity of the
decimal rendering, proved here against core's `Nat.repr`. -/

/-- The decimal digit list of `n`, most significant first. -/
def decDigits (n : Nat) : List Char :=
  if h : n < 10 then [Nat.digitChar n]
  else
    have : n / 10 < n := Nat.div_lt_self (by omega) (by omega)
    decDigits (n / 10) ++ [Nat.digitChar (n % 10)]

/-- Value of a decimal digit string. -/
def decVal (l : List Char) : Nat :=
  l.foldl (fun a c => a * 10 + (c.toNat - 48)) 0

/-! ## `unique_tag` (lib.rs:1216-1225)

Rust keeps a `HashSet<String>` of used tags; here `used` is the list of its
elements.  `unique_tag` walks the candidate sequence `base`, `base-2`,
`base-3`, … and returns the first candidate not in `used`; the fuel
`used.length + 1` is enough by a pigeonhole argument, so the model agrees
with the unbounded Rust loop. -/

/-- The `i`-th candidate tried by `unique_tag`. -/
def tagCand (base : String) : Nat → String
  | 0 => base
  | i + 1 => base ++ "-" ++ Nat.repr (i + 2)

def uniqueTagGo (base : String) (used : List String) : Nat → Nat → String
  | i, 0 => tagCand base i
  | i, fuel + 1 =>
    if tagCand base i ∈ used then uniqueTagGo base used (i + 1) fuel
    else tagCand base i

def unique_tag (base : String) (used : List String) : String :=
  uniqueTagGo base used 0 (used.length + 1)

/-! ## Data model: modes and app rules (lib.rs:58-84) -/

inductive ProxyMode where
  | off
  | selected
  | full
deriving DecidableEq

inductive AppRuleMode where
  | proxy
  | direct
deriving DecidableEq

structure AppRule where
  path : String
  mode : AppRuleMode
  name : Option String

/-! ## String helpers used by rule normalization

Rust's `str::trim` / `str::trim_matches('"')` on the character level. -/

def rust_trim_chars (l : List Char) : List Char :=
  ((l.dropWhile Char.isWhitespace).reverse.dropWhile Char.isWhitespace).reverse

def trim_quote_chars (l : List Char) : List Char :=
  ((l.dropWhile (· == '"')).reverse.dropWhile (· == '"')).reverse

/-- `value.trim().trim_matches('"')`. -/
def norm_path (s : String) : String :=
  ⟨trim_quote_chars (rust_trim_chars s.data)⟩

/-- `is_process_name` (lib.rs:415-427). -/
def is_process_name (value : String) : Bool :=
  let trimmed := norm_path value
  if trimmed.isEmpty then false
  else if trimmed.data.contains '\\' || trimmed.data.contains '/' then false
  else if trimmed.data.contains ':' then false
  else true

/-- `Vec::dedup`: remove consecutive duplicates. -/
def dedup_consec : List String → List String
  | [] => []
  | [a] => [a]
  | a :: b :: rest =>
    if a = b then dedup_consec (b :: rest) else a :: dedup_consec (b :: rest)

/-- `sort_dedup` (lib.rs:429-432): sort ascending, then drop consecutive
duplicates.  Rust sorts by byte-wise order on UTF-8, which coincides with
code-point order, i.e. with Lean's `≤` on `String`. -/
def sort_dedup (values : List String) : List String :=
  dedup_consec (values.mergeSort (fun a b => decide (a ≤ b)))

/-- `normalize_rules` (lib.rs:434-467): classify each rule's path as a
process name or path, split by mode, then sort-dedup each bucket.
Returns `(proxy_paths, direct_paths, proxy_names, direct_names)`. -/
def normalize_rules (rules : List AppRule) :
    List String × List String × List String × List String :=
  let acc := rules.foldl
    (fun (acc : List String × List String × List String × List String) rule =>
      let (pp, dp, pn, dn) := acc
      let path := norm_path rule.path
      if path.isEmpty then acc
      else
        let is_name := is_process_name path
        match rule.mode with
        | .proxy => if is_name then (pp, dp, pn ++ [path], dn) else (pp ++ [path], dp, pn, dn)
        | .direct => if is_name then (pp, dp, pn, dn ++ [path]) else (pp, dp ++ [path], pn, dn))
    ([], [], [], [])
  (sort_dedup acc.1, sort_dedup acc.2.1, sort_dedup acc.2.2.1, sort_dedup acc.2.2.2)

/-! ## Route construction (lib.rs:469-519, 692-735) -/

def GEOIP_RU_TAG : String := "geoip-ru"
def GEOIP_RU_URL : String :=
  "https://raw.githubusercontent.com/SagerNet/sing-geoip/rule-set/geoip-ru.srs"
def LOCAL_PROXY_TAG : String := "local-proxy"
def LOCAL_PROXY_HOST : String := "127.0.0.1"

/-- `push_process_rules` (lib.rs:469-487), returning the extended rule list. -/
def push_process_rules (rules : List JVal) (paths names : List String)
    (outbound : String) : List JVal :=
  let r1 :=
    if paths.isEmpty then rules
    else rules ++ [.obj [("process_path", .arr (paths.map .str)),
                         ("outbound", .str outbound)]]
  if names.isEmpty then r1
  else r1 ++ [.obj [("process_name", .arr (names.map .str)),
                    ("outbound", .str outbound)]]

/-- `build_geoip_ru_rule_set` (lib.rs:489-508); `ruleSetLocal` tells whether
the cached binary rule-set file exists on disk. -/
def build_geoip_ru_rule_set (ruleSetLocal : Bool) (ruleSetPath : String) : JVal :=
  if ruleSetLocal then
    .obj [("tag", .str GEOIP_RU_TAG), ("type", .str "local"),
          ("format", .str "binary"), ("path", .str ruleSetPath)]
  else
    .obj [("tag", .str GEOIP_RU_TAG), ("type", .str "remote"),
          ("format", .str "binary"), ("url", .str GEOIP_RU_URL),
          ("download_detour", .str "proxy"), ("update_interval", .str "72h")]

def hijack_dns_rule : JVal := .obj [("action", .str "hijack-dns"), ("port", .num 53)]

/-- `push_ru_bypass_rules` (lib.rs:510-519). -/
def push_ru_bypass_rules (rules : List JVal) : List JVal :=
  rules ++ [.obj [("domain_suffix", .arr [.str ".ru"]), ("outbound", .str "direct")],
            .obj [("rule_set", .arr [.str GEOIP_RU_TAG]), ("outbound", .str "direct")]]

def local_inbound_rule : JVal :=
  .obj [("inbound", .arr [.str LOCAL_PROXY_TAG]), ("outbound", .str "proxy")]

/-- The `route` value built in `build_config` (lib.rs:694-735). -/
def route_value (mode : ProxyMode) (rules : List AppRule) (ruleSetLocal : Bool)
    (ruleSetPath : String) : JVal :=
  let geoip := build_geoip_ru_rule_set ruleSetLocal ruleSetPath
  let (proxy_paths, direct_paths, proxy_names, direct_names) := normalize_rules rules
  match mode with
  | .full =>
    let r := push_ru_bypass_rules [hijack_dns_rule] ++ [local_inbound_rule]
    let r := push_process_rules r direct_paths direct_names "direct"
    .obj [("rules", .arr r), ("final", .str "proxy"),
          ("auto_detect_interface", .bool true), ("rule_set", .arr [geoip])]
  | .selected =>
    let r := push_ru_bypass_rules [hijack_dns_rule] ++ [local_inbound_rule]
    let r := push_process_rules r direct_paths direct_names "direct"
    let r := push_process_rules r proxy_paths proxy_names "proxy"
    .obj [("rules", .arr r), ("final", .str "direct"),
          ("auto_detect_interface", .bool true), ("rule_set", .arr [geoip])]
  | .off => .obj []

/-! ## Outbound synthesis (lib.rs:521-640) -/

def tags_of (outs : List JVal) : List String :=
  outs.filterMap (fun item => jGetStr item "tag")

def is_proxy_tagged (item : JVal) : Bool := jGetStr item "tag" == some "proxy"

def is_nonreserved (t : String) : Bool := !(t == "proxy") && !(t == "direct")

def selector_of (memberTags : List String) (defaultTag : String) : JVal :=
  .obj [("type", .str "selector"), ("tag", .str "proxy"),
        ("outbounds", .arr (memberTags.map .str)), ("default", .str defaultTag)]

def default_direct : JVal := .obj [("type", .str "direct"), ("tag", .str "direct")]

/-- Active-tag resolution (lib.rs:556-562): a stored tag that no longer
names an existing endpoint is treated as unset. -/
def resolve_active (stored : Option String) (tags : List String) : Option String :=
  match stored with
  | some t => if t ∈ tags then some t else none
  | none => none

/-- The `proxy`/selector normalization of the outbound list
(lib.rs:564-632), returning the new list together with the `tags` variable
as the Rust code leaves it. -/
def synth_outbounds (outs : List JVal) (active : Option String) :
    Except String (List JVal × List String) :=
  let tags := tags_of outs
  match outs.findIdx? is_proxy_tagged with
  | some index =>
    let ptype := match outs.get? index with
      | some o => (jGetStr o "type").getD ""
      | none => ""
    let needs_selector := active.isSome && decide (tags.length > 1)
    if ptype = "selector" then
      let selector_tags := tags.filter is_nonreserved
      let outs1 :=
        if selector_tags.isEmpty then outs
        else modifyIdx outs index
          (fun o => jSet o "outbounds" (.arr (selector_tags.map .str)))
      let outs2 := match active with
        | some t => modifyIdx outs1 index (fun o => jSet o "default" (.str t))
        | none => outs1
      .ok (outs2, tags)
    else if needs_selector then
      let renamed := unique_tag "proxy-origin" tags
      let outs1 := modifyIdx outs index (fun o => jSet o "tag" (.str renamed))
      let tags1 := tags_of outs1
      let selected := active.getD renamed
      let selector_tags := tags1.filter is_nonreserved
      if selector_tags.isEmpty then .error "PROFILE_OUTBOUNDS_MISSING|no proxy outbounds"
      else
        let outs2 := outs1 ++ [selector_of selector_tags selected]
        .ok (outs2, tags_of outs2)
    else .ok (outs, tags)
  | none =>
    let selected := active.getD (tags.headD "")
    let selector_tags := tags.filter is_nonreserved
    if selector_tags.isEmpty then .error "PROFILE_OUTBOUNDS_MISSING|no proxy outbounds"
    else
      let outs2 := outs ++ [selector_of selector_tags selected]
      .ok (outs2, tags_of outs2)

/-- lib.rs:634-640: append a default `direct` endpoint when no endpoint is
*tagged* `direct` (the check is by tag, not type). -/
def ensure_direct (outs : List JVal) (tags : List String) : List JVal :=
  if tags.contains "direct" then outs else outs ++ [default_direct]

def log_block (logPath : String) : JVal :=
  .obj [("level", .str "info"), ("output", .str logPath)]

def dns_block : JVal :=
  .obj [("servers", .arr
          [.obj [("tag", .str "dns-local"), ("type", .str "local")],
           .obj [("tag", .str "dns-remote"), ("type", .str "https"),
                 ("server", .str "dns.google"), ("path", .str "/dns-query"),
                 ("domain_resolver", .str "dns-local")]]),
        ("final", .str "dns-remote")]

def inbounds_list : List JVal :=
  [.obj [("type", .str "tun"), ("tag", .str "tun-in"),
         ("address", .arr [.str "172.19.0.1/30", .str "fdfe:dcba:9876::1/126"]),
         ("auto_route", .bool true), ("strict_route", .bool true),
         ("stack", .str "system")],
   .obj [("type", .str "mixed"), ("tag", .str LOCAL_PROXY_TAG),
         ("listen", .str LOCAL_PROXY_HOST), ("listen_port", .num 2080)]]

/-- Document assembly (lib.rs:642-747): insert the processed outbounds,
default log/DNS blocks when absent, the regenerated inbounds, and - unless
the mode is `Off` - the route section. -/
def assemble_config (fields : List (String × JVal)) (outs : List JVal)
    (ruleSetLocal : Bool) (logPath ruleSetPath : String) (mode : ProxyMode)
    (rules : List AppRule) : JVal :=
  let f1 := objInsert fields "outbounds" (.arr outs)
  let f2 := if (f1.lookup "log").isSome then f1
            else objInsert f1 "log" (log_block logPath)
  let f3 := if (f2.lookup "dns").isSome then f2
            else objInsert f2 "dns" dns_block
  let f4 := objInsert f3 "inbounds" (.arr inbounds_list)
  let f5 := if mode = .off then f4
            else objInsert f4 "route" (route_value mode rules ruleSetLocal ruleSetPath)
  .obj f5

/-- `build_config` (lib.rs:521-747).  The profile document and the stored
active tag are passed in place of the file reads; the returned value is the
document written to the generated-config path. -/
def build_config (profile : JVal) (storedActive : Option String)
    (ruleSetLocal : Bool) (logPath ruleSetPath : String) (mode : ProxyMode)
    (rules : List AppRule) : Except String JVal :=
  match profile with
  | .obj profileFields =>
    match profileFields.lookup "outbounds" with
    | none => .error "PROFILE_OUTBOUNDS_MISSING|missing outbounds"
    | some outboundsVal =>
      match outboundsVal with
      | .arr outs =>
        let tags := tags_of outs
        if tags.isEmpty then .error "PROFILE_OUTBOUNDS_MISSING|no outbounds"
        else
          let active := resolve_active storedActive tags
          match synth_outbounds outs active with
          | .error e => .error e
          | .ok (outs1, tags1) =>
            let outs2 := ensure_direct outs1 tags1
            .ok (assemble_config profileFields outs2 ruleSetLocal logPath
                  ruleSetPath mode rules)
      | _ => .error "PROFILE_INVALID|outbounds must be an array"
  | _ => .error "PROFILE_INVALID|root must be an object"

/-! ## Log rotation (lib.rs:45-46, 878-904)

The file's byte content is passed in place of the metadata/read/write calls;
the result is the content after the call together with the returned Bool. -/

def LOG_MAX_BYTES : Nat := 8 * 1024 * 1024
def LOG_KEEP_BYTES : Nat := 6 * 1024 * 1024

/-- `trim_log_file` (lib.rs:878-904): nothing happens at or below
`max_bytes`; above it, the file is rewritten to its trailing
`min keep_bytes len` bytes. -/
def trim_log_file (content : List Nat) (keep_bytes max_bytes : Nat) :
    List Nat × Bool :=
  let len := content.length
  if len ≤ max_bytes then (content, false)
  else
    let keep := min keep_bytes len
    let start := len - keep
    let buf := content.drop start
    (buf, true)

/-! ## Supervisor runtime state and background tasks (lib.rs:86-96, 768-867)

One loop iteration of each background task is a step function; the lock-held
section is atomic.  `child.try_wait()` results arrive as a `ChildPoll`
parameter, newly read log lines as a list; emissions are collected. -/

structure ProxyStateM where
  childPresent : Bool
  mode : ProxyMode
  lastExit : Option Int
  lastError : Option String
  watchToken : Nat
deriving DecidableEq

inductive ChildPoll where
  | exited (code : Option Int)
  | running
  | pollError (msg : String)

inductive Emission where
  | proxyExited (code : Option Int)
  | logBatch (lines : List String)
deriving DecidableEq

/-- One iteration of the monitor loop (lib.rs:769-806): returns the state
after the iteration, the emissions, and whether the task continues. -/
def monitor_step (token : Nat) (st : ProxyStateM) (poll : ChildPoll) :
    ProxyStateM × List Emission × Bool :=
  if st.watchToken ≠ token then (st, [], false)
  else if st.childPresent then
    match poll with
    | .exited code =>
      ({ st with lastExit := code, childPresent := false, mode := .off,
                 lastError := none },
       if code.isSome then [.proxyExited code] else [],
       !code.isSome)
    | .running => (st, [], true)
    | .pollError msg =>
      ({ st with lastExit := some (-1), lastError := some msg,
                 childPresent := false, mode := .off },
       [.proxyExited (some (-1))], false)
  else (st, [], false)

/-- The monitor's iterations folded over a list of poll results. -/
def monitor_run (token : Nat) (st : ProxyStateM) : List ChildPoll →
    ProxyStateM × List Emission
  | [] => (st, [])
  | poll :: rest =>
    let (st1, ems, cont) := monitor_step token st poll
    if cont then
      let (st2, ems2) := monitor_run token st1 rest
      (st2, ems ++ ems2)
    else (st1, ems)

/-- One iteration of the log-tailer loop (lib.rs:820-865).  The tailer
mutates no runtime state; `pending` is its local line buffer, `newLines`
the complete lines read this pass (already `\r`/`\n`-stripped and
non-empty), `emitDue` whether 250 ms have passed since the last flush. -/
def tailer_step (token : Nat) (st : ProxyStateM) (pending : List String)
    (newLines : List String) (emitDue : Bool) :
    List String × List Emission × Bool :=
  if st.watchToken ≠ token then (pending, [], false)
  else
    let pending := pending ++ newLines
    if !pending.isEmpty && (decide (pending.length ≥ 50) || emitDue) then
      ([], [.logBatch pending], true)
    else (pending, [], true)

/-- The tailer's iterations folded over a list of inputs. -/
def tailer_run (token : Nat) (st : ProxyStateM) (pending : List String) :
    List (List String × Bool) → List String × List Emission
  | [] => (pending, [])
  | (newLines, emitDue) :: rest =>
    let (p1, ems, cont) := tailer_step token st pending newLines emitDue
    if cont then
      let (p2, ems2) := tailer_run token st p1 rest
      (p2, ems ++ ems2)
    else (p1, ems)

/-! ## Import pipeline (lib.rs:1227-1234, 1737-1795, 2010-2037)

`append_outbounds` and `import_share_links` over an in-memory profile:
the loaded profile document and stored active tag come in as arguments,
the saved profile/state go out in the result.  The per-scheme share-link
parsers are the `parse` parameter. -/

/-- `guess_tag` (lib.rs:1227-1234). -/
def guess_tag (raw : JVal) (fallback : String) : String :=
  match (jGetStr raw "tag").filter (fun tag => !(rust_trim_chars tag.data).isEmpty) with
  | some tag => tag
  | none =>
    match jGetStr raw "ps" with
    | some tag => tag
    | none => fallback

def is_obj : JVal → Bool
  | .obj _ => true
  | _ => false

structure ImportResultM where
  outbounds : List JVal
  activeTag : Option String
  added : Nat
  errors : List String

/-- The descriptor loop of `append_outbounds` (lib.rs:1758-1777): state is
`(outbounds so far, used tags, added, errors, first added tag)`. -/
def append_loop :
    List JVal → List JVal → List String → Nat → List String → Option String →
    List JVal × List String × Nat × List String × Option String
  | [], outs, used, added, errs, fa => (outs, used, added, errs, fa)
  | ob :: rest, outs, used, added, errs, fa =>
    if is_obj ob then
      let fallback := (jGetStr ob "type").getD "profile"
      let tag := guess_tag ob fallback
      let unique := unique_tag tag used
      let ob1 := jSet ob "tag" (.str unique)
      let fa1 := match fa with
        | none => some unique
        | some t => some t
      append_loop rest (outs ++ [ob1]) (used ++ [unique]) (added + 1) errs fa1
    else
      append_loop rest outs used added (errs ++ ["Invalid outbound object"]) fa

/-- `append_outbounds` (lib.rs:1737-1795). -/
def append_outbounds (profile : JVal) (storedActive : Option String)
    (newOutbounds : List JVal) : Except String ImportResultM :=
  match profile with
  | .obj fields =>
    let existing := match fields.lookup "outbounds" with
      | some (.arr l) => l
      | _ => []
    let used := tags_of existing
    let (outs, _, added, errs, fa) := append_loop newOutbounds existing used 0 [] none
    let active := match storedActive with
      | none => fa
      | some t => some t
    .ok { outbounds := outs, activeTag := active, added := added, errors := errs }
  | _ => .error "PROFILE_INVALID|root must be an object"

/-- `import_share_links` (lib.rs:2010-2037); `parse` is
`parse_share_link`, abstracted over the per-scheme parsers. -/
def import_share_links (parse : String → Except String JVal) (profile : JVal)
    (storedActive : Option String) (links : List String) :
    Except String ImportResultM :=
  let step := fun (acc : List JVal × List String) (link : String) =>
    if (rust_trim_chars link.data).isEmpty then acc
    else match parse link with
      | .ok outbound => (acc.1 ++ [outbound], acc.2)
      | .error e => (acc.1, acc.2 ++ [link ++ ": " ++ e])
  let (outbounds, errors) := links.foldl step ([], [])
  if outbounds.isEmpty then
    .error ("IMPORT_FAILED|" ++
      (if errors.isEmpty then "no valid links" else String.intercalate "\n" errors))
  else
    match append_outbounds profile storedActive outbounds with
    | .ok result => .ok { result with errors := result.errors ++ errors }
    | .error e => .error e

/-! ## Profile-state operations (lib.rs:1975-2007)

`set_active_profile` stores the requested tag without checking that it
names an existing endpoint; `remove_outbound` filters by tag and clears the
active tag when it named the removed endpoint. -/

/-- `set_active_profile` (lib.rs:1975-1981), restricted to the state it
writes. -/
def set_active_profile (tag : String) : Option String := some tag

/-- `remove_outbound` (lib.rs:1984-2007): the new outbound list and the new
stored active tag. -/
def remove_outbound (profile : JVal) (storedActive : Option String)
    (tag : String) : Except String (List JVal × Option String) :=
  match profile with
  | .obj fields =>
    let outbounds := match fields.lookup "outbounds" with
      | some (.arr l) => l
      | _ => []
    let filtered := outbounds.filter (fun item => !(jGetStr item "tag" == some tag))
    let active := if storedActive == some tag then none else storedActive
    .ok (filtered, active)
  | _ => .error "PROFILE_INVALID|root must be an object"

/-- The profile-state invariant named by the spec: the persisted active tag
names an existing endpoint descriptor or is unset. -/
def active_tag_ok (outs : List JVal) (active : Option String) : Prop :=
  ∀ t, active = some t → t ∈ tags_of outs

/-! ## Tolerant base64 decoding (lib.rs:992-1025)

The `base64` crate engines `STANDARD`, `STANDARD_NO_PAD`, `URL_SAFE`,
`URL_SAFE_NO_PAD` modelled over `List Char` input and `List Nat` output:
the padded engines require canonical padding, the no-pad engines reject any
`=`; non-zero trailing bits are rejected.  Strings decode as their UTF-8
byte lists; `String::from_utf8` is the `utf8_valid` check. -/

/-- Bytes to 6-bit groups (the encoder's bit-packing). -/
def sextets : List Nat → List Nat
  | [] => []
  | [a] => [a / 4, a % 4 * 16]
  | [a, b] => [a / 4, a % 4 * 16 + b / 16, b % 16 * 4]
  | a :: b :: c :: rest =>
    a / 4 :: (a % 4 * 16 + b / 16) :: (b % 16 * 4 + c / 64) :: c % 64 :: sextets rest

/-- 6-bit groups back to bytes; `none` on an impossible length or non-zero
trailing bits. -/
def unsextets : List Nat → Option (List Nat)
  | [] => some []
  | [_] => none
  | [s1, s2] => if s2 % 16 = 0 then some [s1 * 4 + s2 / 16] else none
  | [s1, s2, s3] =>
    if s3 % 4 = 0 then some [s1 * 4 + s2 / 16, s2 % 16 * 16 + s3 / 4] else none
  | s1 :: s2 :: s3 :: s4 :: rest =>
    (unsextets rest).map
      (fun bs => (s1 * 4 + s2 / 16) :: (s2 % 16 * 16 + s3 / 4) :: (s3 % 4 * 64 + s4) :: bs)

/-- Standard-alphabet character of a 6-bit value. -/
def std_enc_char (v : Nat) : Char :=
  if v < 26 then Char.ofNat (65 + v)
  else if v < 52 then Char.ofNat (97 + v - 26)
  else if v < 62 then Char.ofNat (48 + v - 52)
  else if v = 62 then '+'
  else '/'

/-- URL-safe-alphabet character of a 6-bit value. -/
def url_enc_char (v : Nat) : Char :=
  if v < 26 then Char.ofNat (65 + v)
  else if v < 52 then Char.ofNat (97 + v - 26)
  else if v < 62 then Char.ofNat (48 + v - 52)
  else if v = 62 then '-'
  else '_'

def std_dec_char (c : Char) : Option Nat :=
  let n := c.toNat
  if 65 ≤ n ∧ n ≤ 90 then some (n - 65)
  else if 97 ≤ n ∧ n ≤ 122 then some (n - 97 + 26)
  else if 48 ≤ n ∧ n ≤ 57 then some (n - 48 + 52)
  else if n = 43 then some 62
  else if n = 47 then some 63
  else none

def url_dec_char (c : Char) : Option Nat :=
  let n := c.toNat
  if 65 ≤ n ∧ n ≤ 90 then some (n - 65)
  else if 97 ≤ n ∧ n ≤ 122 then some (n - 97 + 26)
  else if 48 ≤ n ∧ n ≤ 57 then some (n - 48 + 52)
  else if n = 45 then some 62
  else if n = 95 then some 63
  else none

def dec_chars (dec : Char → Option Nat) : List Char → Option (List Nat)
  | [] => some []
  | c :: rest =>
    match dec c with
    | some v => (dec_chars dec rest).map (fun vs => v :: vs)
    | none => none

def encode_no_pad (enc : Nat → Char) (bs : List Nat) : List Char :=
  (sextets bs).map enc

/-- `add_padding` (lib.rs:992-999). -/
def add_padding (s : List Char) : List Char :=
  if s.length % 4 = 0 then s
  else s ++ List.replicate (4 - s.length % 4) '='

def encode_padded (enc : Nat → Char) (bs : List Nat) : List Char :=
  add_padding (encode_no_pad enc bs)

/-- A no-padding engine's decode: every character must be an alphabet
character (so any `=` fails), and the sextet count must unpack. -/
def decode_no_pad (dec : Char → Option Nat) (s : List Char) : Option (List Nat) :=
  (dec_chars dec s).bind unsextets

def count_trailing_eq (s : List Char) : Nat :=
  (s.reverse.takeWhile (fun c => c == '=')).length

/-- A padding engine's decode with canonical padding: total length a
multiple of 4 and at most two trailing `=`. -/
def decode_padded (dec : Char → Option Nat) (s : List Char) : Option (List Nat) :=
  if s.length % 4 ≠ 0 then none
  else
    let k := count_trailing_eq s
    if 2 < k then none
    else decode_no_pad dec (s.take (s.length - k))

inductive B64Engine where
  | urlNoPad
  | urlPad
  | stdNoPad
  | stdPad

def engine_decode : B64Engine → List Char → Option (List Nat)
  | .urlNoPad, s => decode_no_pad url_dec_char s
  | .urlPad, s => decode_padded url_dec_char s
  | .stdNoPad, s => decode_no_pad std_dec_char s
  | .stdPad, s => decode_padded std_dec_char s

/-- UTF-8 validity of a byte list (`String::from_utf8` succeeds). -/
def utf8_valid : List Nat → Bool
  | [] => true
  | b :: rest =>
    if b < 128 then utf8_valid rest
    else if b < 194 then false
    else if b < 224 then
      match rest with
      | b2 :: r => (128 ≤ b2 && b2 < 192) && utf8_valid r
      | _ => false
    else if b < 240 then
      match rest with
      | b2 :: b3 :: r =>
        (if b = 224 then 160 ≤ b2 && b2 < 192
         else if b = 237 then 128 ≤ b2 && b2 < 160
         else 128 ≤ b2 && b2 < 192) &&
        (128 ≤ b3 && b3 < 192) && utf8_valid r
      | _ => false
    else if b < 245 then
      match rest with
      | b2 :: b3 :: b4 :: r =>
        (if b = 240 then 144 ≤ b2 && b2 < 192
         else if b = 244 then 128 ≤ b2 && b2 < 144
         else 128 ≤ b2 && b2 < 192) &&
        (128 ≤ b3 && b3 < 192) && (128 ≤ b4 && b4 < 192) && utf8_valid r
      | _ => false
    else false

/-- `engine.decode(..)` followed by `String::from_utf8`: a decode success
with invalid UTF-8 falls through like a decode failure (lib.rs:1010-1021). -/
def try_engine_decode (e : B64Engine) (s : List Char) : Option (List Nat) :=
  match engine_decode e s with
  | some bs => if utf8_valid bs then some bs else none
  | none => none

/-- The inner loop of `decode_base64_to_string` over one candidate: each
engine tries the candidate, then (when different) its padded form. -/
def try_candidate (c : List Char) : Option (List Nat) :=
  let padded := add_padding c
  let attempt := fun (e : B64Engine) =>
    (try_engine_decode e c).orElse
      (fun _ => if c = padded then none else try_engine_decode e padded)
  (attempt .urlNoPad).orElse fun _ =>
    (attempt .urlPad).orElse fun _ =>
      (attempt .stdNoPad).orElse fun _ => attempt .stdPad

def rust_trim_str (s : List Char) : List Char := rust_trim_chars s

/-- The URL-safe-to-standard character remap (lib.rs:1005). -/
def remap_urlsafe (s : List Char) : List Char :=
  s.map (fun c => if c = '-' then '+' else if c = '_' then '/' else c)

/-- `decode_base64_to_string` (lib.rs:1001-1025) over the input's
characters, returning the decoded text's UTF-8 bytes. -/
def decode_base64_to_string (input : List Char) : Except String (List Nat) :=
  let cleaned := rust_trim_chars input
  match try_candidate cleaned with
  | some bs => .ok bs
  | none =>
    match try_candidate (remap_urlsafe cleaned) with
    | some bs => .ok bs
    | none => .error "IMPORT_INVALID|base64 decode failed"

/-! ## Claim statements and theorems -/

/-- The `.ok` payload of an `Except`, for writing closed witnesses. -/
def okOr (r : Except String JVal) : JVal :=
  match r with
  | .ok c => c
  | .error _ => .null

/-- C4 as frozen: in `Off` mode the written document never has a routing
section, whatever the profile. -/
def C4Stated : Prop :=
  ∀ (profile : JVal) (act : Option String) (rsl : Bool) (lp rp : String)
    (rules : List AppRule) (cfg : JVal),
    build_config profile act rsl lp rp .off rules = .ok cfg →
    jGet cfg "route" = none

/-- A profile that already carries a `route` section. -/
def routeProfileFields : List (String × JVal) :=
  [("outbounds", .arr [.obj [("type", .str "socks"), ("tag", .str "x")]]),
   ("route", .str "user-route")]

/-- C3 as frozen: any profile with a `proxy`-tagged endpoint (selector or
concrete) and no tags besides `proxy`/`direct` makes synthesis fail with a
`ProfileOutboundsMissing` error. -/
def C3Stated : Prop :=
  ∀ (fields : List (String × JVal)) (outs : List JVal) (act : Option String)
    (rsl : Bool) (lp rp : String) (mode : ProxyMode) (rules : List AppRule),
    fields.lookup "outbounds" = some (.arr outs) →
    (∃ o ∈ outs, jGetStr o "tag" = some "proxy") →
    (tags_of outs).filter is_nonreserved = [] →
    ∃ detail, build_config (.obj fields) act rsl lp rp mode rules
      = .error ("PROFILE_OUTBOUNDS_MISSING|" ++ detail)

/-- A profile whose only outbound is a selector tagged `proxy`. -/
def selectorOnlyFields : List (String × JVal) :=
  [("outbounds", .arr [.obj [("type", .str "selector"), ("tag", .str "proxy")]])]

/-- C10 as frozen: every accepted profile yields an outbound list holding a
direct-*type* endpoint tagged `direct`, appended as a default when the
input lacked one. -/
def C10Stated : Prop :=
  ∀ (fields : List (String × JVal)) (outs : List JVal) (act : Option String)
    (rsl : Bool) (lp rp : String) (mode : ProxyMode) (rules : List AppRule)
    (cfg : JVal) (fouts : List JVal),
    fields.lookup "outbounds" = some (.arr outs) →
    build_config (.obj fields) act rsl lp rp mode rules = .ok cfg →
    jGet cfg "outbounds" = some (.arr fouts) →
    (∃ o ∈ fouts, jGetStr o "tag" = some "direct" ∧ jGetStr o "type" = some "direct") ∧
    ((¬ ∃ o ∈ outs, jGetStr o "tag" = some "direct" ∧ jGetStr o "type" = some "direct") →
      ∃ mid, fouts = mid ++ [default_direct])

/-- A profile whose `direct`-tagged endpoint is not of type `direct`. -/
def socksDirectFields : List (String × JVal) :=
  [("outbounds", .arr
    [.obj [("type", .str "socks"), ("tag", .str "direct")],
     .obj [("type", .str "socks"), ("tag", .str "x")]])]

/-- A minimal profile with a single non-reserved endpoint. -/
def xOnlyFields : List (String × JVal) :=
  [("outbounds", .arr [.obj [("type", .str "socks"), ("tag", .str "x")]])]

/-- C1 as frozen: a concrete (non-selector) `proxy` endpoint beside at
least one other non-reserved endpoint is always renamed to a fresh
`proxy-origin`-derived tag, and a selector tagged `proxy` over all
non-reserved tags is appended with default the active tag or, absent one,
the renamed endpoint. -/
def C1Stated : Prop :=
  ∀ (fields : List (String × JVal)) (outs : List JVal) (i : Nat)
    (act : Option String) (rsl : Bool) (lp rp : String) (mode : ProxyMode)
    (rules : List AppRule) (cfg : JVal) (fouts : List JVal),
    fields.lookup "outbounds" = some (.arr outs) →
    outs.findIdx? is_proxy_tagged = some i →
    (match outs.get? i with
      | some o => (jGetStr o "type").getD ""
      | none => "") ≠ "selector" →
    (∃ t ∈ tags_of outs, is_nonreserved t = true) →
    build_config (.obj fields) act rsl lp rp mode rules = .ok cfg →
    jGet cfg "outbounds" = some (.arr fouts) →
    ∃ renamed,
      renamed ∉ tags_of outs ∧
      (∃ o ∈ fouts, jGetStr o "tag" = some renamed) ∧
      selector_of ((tags_of (modifyIdx outs i
          (fun o => jSet o "tag" (.str renamed)))).filter is_nonreserved)
        ((resolve_active act (tags_of outs)).getD renamed) ∈ fouts

/-- A profile with a concrete `proxy` endpoint and one other endpoint. -/
def concreteProxyFields : List (String × JVal) :=
  [("outbounds", .arr
    [.obj [("type", .str "socks"), ("tag", .str "proxy")],
     .obj [("type", .str "socks"), ("tag", .str "x")]])]

def concreteProxyOuts : List JVal :=
  [.obj [("type", .str "socks"), ("tag", .str "proxy")],
   .obj [("type", .str "socks"), ("tag", .str "x")]]

/-- C5 as frozen: after importing endpoints, explicitly selecting, or
deleting an endpoint, the persisted active tag names an existing endpoint
descriptor or is unset. -/
def C5Stated : Prop :=
  (∀ (outs : List JVal) (tag : String),
    active_tag_ok outs (set_active_profile tag)) ∧
  (∀ (fields : List (String × JVal)) (outs : List JVal) (act : Option String)
     (tag : String) (res : List JVal × Option String),
     fields.lookup "outbounds" = some (.arr outs) →
     active_tag_ok outs act →
     remove_outbound (.obj fields) act tag = .ok res →
     active_tag_ok res.1 res.2) ∧
  (∀ (fields : List (String × JVal)) (outs : List JVal) (act : Option String)
     (news : List JVal) (res : ImportResultM),
     fields.lookup "outbounds" = some (.arr outs) →
     active_tag_ok outs act →
     append_outbounds (.obj fields) act news = .ok res →
     active_tag_ok res.outbounds res.activeTag)

def okOrImport (r : Except String ImportResultM) : ImportResultM :=
  match r with
  | .ok v => v
  | .error _ => ⟨[], none, 0, []⟩

def staleState : ProxyStateM :=
  { childPresent := true, mode := .selected, lastExit := none,
    lastError := none, watchToken := 1 }

/-- The descriptors parsed out of a batch (non-blank links whose parse
succeeded), in order. -/
def parsed_links (parse : String → Except String JVal) (links : List String) :
    List JVal :=
  links.filterMap (fun l =>
    if (rust_trim_chars l.data).isEmpty then none else (parse l).toOption)

/-- The per-link failure messages accumulated by the batch loop. -/
def link_errors (parse : String → Except String JVal) (links : List String) :
    List String :=
  links.filterMap (fun l =>
    if (rust_trim_chars l.data).isEmpty then none
    else
      match parse l with
      | .error e => some (l ++ ": " ++ e)
      | .ok _ => none)

/-- A one-scheme parser stub for the import witness. -/
def vmessParse : String → Except String JVal := fun l =>
  if l = "a" then
    .ok (.obj [("type", .str "vmess"), ("tag", .str "vmess-host:443")])
  else .error "IMPORT_UNSUPPORTED|unsupported share link"

def emptyOutsFields : List (String × JVal) := [("outbounds", .arr [])]

/-! ## First-match semantics of the generated route rules (C2) -/

def strOf : JVal → Option String
  | .str s => some s
  | _ => none

/-- The process-path and process-name strings a route rule matches on. -/
def proc_strings (r : JVal) : List String :=
  (match jGet r "process_path" with
   | some (.arr l) => l.filterMap strOf
   | _ => []) ++
  (match jGet r "process_name" with
   | some (.arr l) => l.filterMap strOf
   | _ => [])

def rule_matches_proc (n : String) (r : JVal) : Bool :=
  (proc_strings r).contains n

/-- sing-box first-match evaluation restricted to the process dimension:
the `outbound` of the first rule whose process lists mention the string. -/
def first_match_outbound (rl : List JVal) (n : String) : Option JVal :=
  (rl.find? (rule_matches_proc n)).bind (fun r => jGet r "outbound")

/-- The fold step of `normalize_rules` (lib.rs:436-460), named so the fold
can be reasoned about. -/
def nrStep (acc : List String × List String × List String × List String)
    (rule : AppRule) : List String × List String × List String × List String :=
  let (pp, dp, pn, dn) := acc
  let path := norm_path rule.path
  if path.isEmpty then acc
  else
    let is_name := is_process_name path
    match rule.mode with
    | .proxy => if is_name then (pp, dp, pn ++ [path], dn) else (pp ++ [path], dp, pn, dn)
    | .direct => if is_name then (pp, dp, pn, dn ++ [path]) else (pp, dp ++ [path], pn, dn)

def c2wRules : List AppRule :=
  [⟨"app.exe", .direct, none⟩, ⟨"app.exe", .proxy, none⟩]

def c2wProfile : JVal :=
  .obj [("outbounds", .arr [.obj [("tag", .str "node"), ("type", .str "vless")]])]

/-- The raw-then-padded attempt of a single engine inside the candidate
loop (lib.rs:1010-1021). -/
def try_both (e : B64Engine) (c : List Char) : Option (List Nat) :=
  (try_engine_decode e c).orElse
    (fun _ => if c = add_padding c then none else try_engine_decode e (add_padding c))

theorem lookup_map_replace (fields : List (String × JVal)) (key : String) (val : JVal) :
    (fields.map (fun p => if p.1 = key then (key, val) else p)).lookup key
      = (fields.lookup key).map (fun _ => val) := by
  induction fields with
  | nil => rfl
  | cons p rest ih =>
    by_cases hp : p.1 = key
    · rw [List.map_cons, if_pos hp]
      have hb : (key == p.1) = true := by simp [hp]
      simp [List.lookup, hb]
    · rw [List.map_cons, if_neg hp]
      have hb : (key == p.1) = false := by
        simp only [beq_eq_false_iff_ne, ne_eq]
        exact fun h' => hp h'.symm
      simp [List.lookup, hb, ih]

theorem lookup_map_replace_ne (fields : List (String × JVal)) (key other : String)
    (val : JVal) (h : other ≠ key) :
    (fields.map (fun p => if p.1 = key then (key, val) else p)).lookup other
      = fields.lookup other := by
  induction fields with
  | nil => rfl
  | cons p rest ih =>
    by_cases hp : p.1 = key
    · rw [List.map_cons, if_pos hp]
      have hb : (other == key) = false := by simpa using h
      have hb' : (other == p.1) = false := by
        rw [hp]; exact hb
      simp [List.lookup, hb, hb', ih]
    · rw [List.map_cons, if_neg hp]
      by_cases ho : other = p.1
      · have hb : (other == p.1) = true := by simp [ho]
        simp [List.lookup, hb]
      · have hb : (other == p.1) = false := by simpa using ho
        simp [List.lookup, hb, ih]

theorem lookup_append_single (fields : List (String × JVal)) (key : String) (val : JVal)
    (h : fields.lookup key = none) :
    (fields ++ [(key, val)]).lookup key = some val := by
  induction fields with
  | nil => simp [List.lookup]
  | cons p rest ih =>
    by_cases hp : key = p.1
    · have hb : (key == p.1) = true := by simp [hp]
      simp [List.lookup, hb] at h
    · have hb : (key == p.1) = false := by simpa using hp
      simp only [List.lookup, hb] at h
      simpa [List.lookup, hb] using ih h

theorem lookup_append_single_ne (fields : List (String × JVal)) (key other : String)
    (val : JVal) (h : other ≠ key) :
    (fields ++ [(key, val)]).lookup other = fields.lookup other := by
  induction fields with
  | nil =>
    have hb : (other == key) = false := by simpa using h
    simp [List.lookup, hb]
  | cons p rest ih =>
    by_cases hp : other = p.1
    · have hb : (other == p.1) = true := by simp [hp]
      simp [List.lookup, hb]
    · have hb : (other == p.1) = false := by simpa using hp
      simp [List.lookup, hb, ih]

theorem lookup_objInsert (fields : List (String × JVal)) (key : String) (val : JVal) :
    (objInsert fields key val).lookup key = some val := by
  unfold objInsert
  split
  · next h =>
    rw [lookup_map_replace]
    rcases Option.isSome_iff_exists.mp h with ⟨v, hv⟩
    rw [hv]; rfl
  · next h =>
    exact lookup_append_single _ _ _ (Option.not_isSome_iff_eq_none.mp h)

theorem lookup_objInsert_ne (fields : List (String × JVal)) (key other : String)
    (val : JVal) (h : other ≠ key) :
    (objInsert fields key val).lookup other = fields.lookup other := by
  unfold objInsert
  split
  · exact lookup_map_replace_ne _ _ _ _ h
  · exact lookup_append_single_ne _ _ _ _ h

theorem decVal_go (l : List Char) : ∀ a : Nat,
    l.foldl (fun a c => a * 10 + (c.toNat - 48)) a
      = a * 10 ^ l.length + decVal l := by
  induction l with
  | nil => intro a; simp [decVal]
  | cons c rest ih =>
    intro a
    simp only [List.foldl_cons, decVal, pow_succ]
    rw [ih, ih (0 * 10 + (c.toNat - 48))]
    rw [List.length_cons, pow_succ]
    ring

theorem decVal_append_digit (l : List Char) (c : Char) :
    decVal (l ++ [c]) = 10 * decVal l + (c.toNat - 48) := by
  simp only [decVal, List.foldl_append, List.foldl_cons, List.foldl_nil]
  ring

theorem digitChar_toNat (d : Nat) (h : d < 10) : (Nat.digitChar d).toNat = 48 + d := by
  interval_cases d <;> rfl

theorem decVal_decDigits (n : Nat) : decVal (decDigits n) = n := by
  induction n using Nat.strong_induction_on with
  | _ n ih =>
    by_cases h : n < 10
    · rw [decDigits, dif_pos h]
      simp [decVal, digitChar_toNat n h]
    · rw [decDigits, dif_neg h, decVal_append_digit]
      rw [ih (n / 10) (Nat.div_lt_self (by omega) (by omega))]
      rw [digitChar_toNat (n % 10) (Nat.mod_lt _ (by omega))]
      omega

theorem decDigits_ne_nil (n : Nat) : decDigits n ≠ [] := by
  rw [decDigits]
  split <;> simp

theorem toDigitsCore_eq_decDigits (n : Nat) : ∀ (f : Nat) (acc : List Char), n < f →
    Nat.toDigitsCore 10 f n acc = decDigits n ++ acc := by
  induction n using Nat.strong_induction_on with
  | _ n ih =>
    intro f acc hf
    match f with
    | f + 1 =>
      show Nat.toDigitsCore 10 (f + 1) n acc = decDigits n ++ acc
      rw [Nat.toDigitsCore]
      by_cases h : n / 10 = 0
      · have hlt : n < 10 := by omega
        simp only [h, if_pos rfl]
        rw [decDigits, dif_pos hlt]
        have : n % 10 = n := Nat.mod_eq_of_lt hlt
        simp [this]
      · simp only [if_neg h]
        have h10 : ¬ n < 10 := by omega
        rw [ih (n / 10) (Nat.div_lt_self (by omega) (by omega)) f
          (Nat.digitChar (n % 10) :: acc) (by omega)]
        conv_rhs => rw [decDigits]
        rw [dif_neg h10]
        simp

theorem repr_eq_decDigits (n : Nat) : Nat.repr n = (decDigits n).asString := by
  show (Nat.toDigits 10 n).asString = (decDigits n).asString
  rw [Nat.toDigits, toDigitsCore_eq_decDigits n (n + 1) [] (by omega)]
  simp

theorem nat_repr_injective : Function.Injective Nat.repr := by
  intro m n h
  rw [repr_eq_decDigits, repr_eq_decDigits] at h
  have hd : decDigits m = decDigits n := by
    have : (decDigits m).asString.data = (decDigits n).asString.data := by rw [h]
    simpa [List.asString] using this
  have := decVal_decDigits m
  rw [hd, decVal_decDigits n] at this
  exact this.symm

theorem repr_length_pos (n : Nat) : 0 < (Nat.repr n).length := by
  rw [repr_eq_decDigits]
  show 0 < (decDigits n).asString.data.length
  have := decDigits_ne_nil n
  simp only [List.asString]
  cases hd : decDigits n with
  | nil => exact absurd hd this
  | cons c rest => simp [String.length, hd]

theorem string_append_data (a b : String) : (a ++ b).data = a.data ++ b.data := rfl

theorem tagCand_injective (base : String) : Function.Injective (tagCand base) := by
  intro i j h
  match i, j with
  | 0, 0 => rfl
  | 0, j + 1 =>
    exfalso
    have hlen := congrArg String.length h
    simp only [tagCand, String.length_append] at hlen
    have := repr_length_pos (j + 2)
    omega
  | i + 1, 0 =>
    exfalso
    have hlen := congrArg String.length h
    simp only [tagCand, String.length_append] at hlen
    have := repr_length_pos (i + 2)
    omega
  | i + 1, j + 1 =>
    simp only [tagCand] at h
    have hdata := congrArg String.data h
    rw [string_append_data, string_append_data, string_append_data,
      string_append_data] at hdata
    rw [List.append_assoc, List.append_assoc] at hdata
    have h2 := List.append_cancel_left hdata
    have h3 := List.append_cancel_left h2
    have : Nat.repr (i + 2) = Nat.repr (j + 2) := by
      apply String.ext
      exact h3
    have := nat_repr_injective this
    omega

theorem uniqueTagGo_not_mem (base : String) (used : List String) :
    ∀ (fuel i : Nat),
      (∃ j, i ≤ j ∧ j ≤ i + fuel ∧ tagCand base j ∉ used) →
      uniqueTagGo base used i fuel ∉ used := by
  intro fuel
  induction fuel with
  | zero =>
    intro i ⟨j, hij, hji, hj⟩
    have : j = i := by omega
    subst this
    simpa [uniqueTagGo] using hj
  | succ fuel ih =>
    intro i ⟨j, hij, hji, hj⟩
    rw [uniqueTagGo]
    by_cases hmem : tagCand base i ∈ used
    · rw [if_pos hmem]
      apply ih
      have hne : j ≠ i := fun he => hj (by rw [he]; exact hmem)
      exact ⟨j, by omega, by omega, hj⟩
    · rwa [if_neg hmem]

theorem exists_fresh_tagCand (base : String) (used : List String) :
    ∃ j, j ≤ used.length + 1 ∧ tagCand base j ∉ used := by
  by_contra hall
  push_neg at hall
  have hsub : ((List.range (used.length + 2)).map (tagCand base)) ⊆ used := by
    intro x hx
    rcases List.mem_map.mp hx with ⟨j, hj, rfl⟩
    exact hall j (by simpa using Nat.lt_succ_iff.mp (by simpa using hj))
  have hnd : ((List.range (used.length + 2)).map (tagCand base)).Nodup :=
    (List.nodup_range _).map (tagCand_injective base)
  have hcard : ((List.range (used.length + 2)).map (tagCand base)).toFinset.card
      = used.length + 2 := by
    rw [List.toFinset_card_of_nodup hnd]
    simp
  have hle : ((List.range (used.length + 2)).map (tagCand base)).toFinset.card
      ≤ used.toFinset.card := by
    apply Finset.card_le_card
    intro x hx
    exact List.mem_toFinset.mpr (hsub (List.mem_toFinset.mp hx))
  have := List.toFinset_card_le used
  omega

/-- The tag returned by `unique_tag` is fresh: it does not occur in `used`. -/
theorem unique_tag_not_mem (base : String) (used : List String) :
    unique_tag base used ∉ used := by
  rcases exists_fresh_tagCand base used with ⟨j, hj, hfresh⟩
  exact uniqueTagGo_not_mem base used (used.length + 1) 0 ⟨j, by omega, by omega, hfresh⟩

/-! ## General lemmas about the JSON model -/

theorem tags_of_append (a b : List JVal) : tags_of (a ++ b) = tags_of a ++ tags_of b := by
  simp [tags_of, List.filterMap_append]

theorem jGetStr_jSet_tag (v : JVal) (hobj : is_obj v = true) (u : String) :
    jGetStr (jSet v "tag" (.str u)) "tag" = some u := by
  cases v with
  | obj fields => simp [jGetStr, jSet, jGet, lookup_objInsert]
  | _ => simp [is_obj] at hobj

theorem jGetStr_jSet_ne (v : JVal) (key other : String) (val : JVal)
    (h : other ≠ key) : jGetStr (jSet v key val) other = jGetStr v other := by
  cases v with
  | obj fields => simp [jGetStr, jSet, jGet, lookup_objInsert_ne _ _ _ _ h]
  | null => rfl
  | bool b => rfl
  | num n => rfl
  | str s => rfl
  | arr l => rfl

theorem is_obj_of_jGetStr {v : JVal} {key : String} {s : String}
    (h : jGetStr v key = some s) : is_obj v = true := by
  cases v <;> simp [jGetStr, jGet, is_obj] at h ⊢

theorem modifyIdx_eq_append (outs : List JVal) (i : Nat) (f : JVal → JVal)
    (h : i < outs.length) :
    ∃ pre o post, outs = pre ++ o :: post ∧ pre.length = i ∧
      modifyIdx outs i f = pre ++ f o :: post := by
  induction outs generalizing i with
  | nil => simp at h
  | cons x rest ih =>
    cases i with
    | zero => exact ⟨[], x, rest, rfl, rfl, rfl⟩
    | succ i =>
      have hi : i < rest.length := by simpa using h
      rcases ih i hi with ⟨pre, o, post, h1, h2, h3⟩
      exact ⟨x :: pre, o, post, by simp [h1], by simp [h2], by simp [modifyIdx, h3]⟩

theorem tags_of_cons (o : JVal) (rest : List JVal) :
    tags_of (o :: rest) =
      (match jGetStr o "tag" with
        | some t => t :: tags_of rest
        | none => tags_of rest) := by
  simp only [tags_of, List.filterMap_cons]
  cases jGetStr o "tag" <;> rfl

/-- Inversion of a successful `findIdx? is_proxy_tagged`. -/
theorem findIdx_proxy_inv {outs : List JVal} {i : Nat}
    (h : outs.findIdx? is_proxy_tagged = some i) :
    ∃ o, outs.get? i = some o ∧ jGetStr o "tag" = some "proxy" := by
  rw [List.findIdx?_eq_some_iff_findIdx_eq] at h
  obtain ⟨hlt, hidx⟩ := h
  refine ⟨outs[i], by simp [List.get?_eq_getElem?, List.getElem?_eq_getElem hlt], ?_⟩
  have hp : is_proxy_tagged outs[i] = true := by
    have := @List.findIdx_getElem _ is_proxy_tagged outs (by rw [hidx]; exact hlt)
    simpa [hidx] using this
  simpa [is_proxy_tagged] using hp

theorem mem_tags_of {outs : List JVal} {o : JVal} {t : String}
    (ho : o ∈ outs) (ht : jGetStr o "tag" = some t) : t ∈ tags_of outs := by
  simp only [tags_of, List.mem_filterMap]
  exact ⟨o, ho, ht⟩

theorem tags_of_proxy_mem {outs : List JVal} {i : Nat}
    (h : outs.findIdx? is_proxy_tagged = some i) : "proxy" ∈ tags_of outs := by
  rcases findIdx_proxy_inv h with ⟨o, hget, htag⟩
  exact mem_tags_of (List.get?_mem hget) htag

/-! ## Lemmas about `unique_tag` candidates -/

theorem uniqueTagGo_shape (base : String) (used : List String) :
    ∀ (fuel i : Nat), ∃ j, uniqueTagGo base used i fuel = tagCand base j := by
  intro fuel
  induction fuel with
  | zero => intro i; exact ⟨i, rfl⟩
  | succ fuel ih =>
    intro i
    rw [uniqueTagGo]
    by_cases hmem : tagCand base i ∈ used
    · rw [if_pos hmem]; exact ih (i + 1)
    · rw [if_neg hmem]; exact ⟨i, rfl⟩

theorem unique_tag_shape (base : String) (used : List String) :
    ∃ j, unique_tag base used = tagCand base j :=
  uniqueTagGo_shape base used (used.length + 1) 0

theorem tagCand_length (base : String) (j : Nat) :
    base.length ≤ (tagCand base j).length := by
  cases j with
  | zero => exact le_refl _
  | succ j =>
    simp only [tagCand, String.length_append]
    omega

theorem unique_tag_proxy_origin_nonreserved (used : List String) :
    is_nonreserved (unique_tag "proxy-origin" used) = true := by
  rcases unique_tag_shape "proxy-origin" used with ⟨j, hj⟩
  have hlen := tagCand_length "proxy-origin" j
  have h12 : ("proxy-origin" : String).length = 12 := rfl
  rw [hj]
  rw [h12] at hlen
  have h5 : ("proxy" : String).length = 5 := rfl
  have h6 : ("direct" : String).length = 6 := rfl
  simp only [is_nonreserved, Bool.and_eq_true, Bool.not_eq_true']
  constructor
  · apply beq_eq_false_iff_ne.mpr
    intro he
    have hc := congrArg String.length he
    rw [h5] at hc
    omega
  · apply beq_eq_false_iff_ne.mpr
    intro he
    have hc := congrArg String.length he
    rw [h6] at hc
    omega

theorem unique_tag_ne_direct (base : String) (used : List String)
    (hb : 7 ≤ base.length) : unique_tag base used ≠ "direct" := by
  rcases unique_tag_shape base used with ⟨j, hj⟩
  have hlen := tagCand_length base j
  rw [hj]
  intro he
  have hc := congrArg String.length he
  have h6 : ("direct" : String).length = 6 := rfl
  rw [h6] at hc
  omega

/-! ## Field lookups in the assembled document -/

theorem lookup_if_insert (c : Prop) [Decidable c] (fs : List (String × JVal))
    (k key : String) (v : JVal) (h : key ≠ k) :
    (if c then fs else objInsert fs k v).lookup key = fs.lookup key := by
  split
  · rfl
  · exact lookup_objInsert_ne _ _ _ _ h

theorem assemble_config_get (fields : List (String × JVal)) (outs : List JVal)
    (rsl : Bool) (lp rp : String) (mode : ProxyMode) (rules : List AppRule)
    (key : String) (hk1 : key ≠ "log") (hk2 : key ≠ "dns") (hk3 : key ≠ "inbounds")
    (hk4 : key ≠ "route") :
    jGet (assemble_config fields outs rsl lp rp mode rules) key
      = (objInsert fields "outbounds" (.arr outs)).lookup key := by
  unfold assemble_config
  simp only [jGet]
  split
  · rw [lookup_objInsert_ne _ _ _ _ hk3, lookup_if_insert _ _ _ _ _ hk2,
      lookup_if_insert _ _ _ _ _ hk1]
  · rw [lookup_objInsert_ne _ _ _ _ hk4, lookup_objInsert_ne _ _ _ _ hk3,
      lookup_if_insert _ _ _ _ _ hk2, lookup_if_insert _ _ _ _ _ hk1]

theorem assemble_config_outbounds (fields : List (String × JVal)) (outs : List JVal)
    (rsl : Bool) (lp rp : String) (mode : ProxyMode) (rules : List AppRule) :
    jGet (assemble_config fields outs rsl lp rp mode rules) "outbounds"
      = some (.arr outs) := by
  rw [assemble_config_get fields outs rsl lp rp mode rules "outbounds"
    (by decide) (by decide) (by decide) (by decide)]
  exact lookup_objInsert _ _ _

theorem assemble_config_route_off (fields : List (String × JVal)) (outs : List JVal)
    (rsl : Bool) (lp rp : String) (rules : List AppRule) :
    jGet (assemble_config fields outs rsl lp rp .off rules) "route"
      = fields.lookup "route" := by
  unfold assemble_config
  simp only [jGet]
  rw [if_true]
  rw [lookup_objInsert_ne _ _ _ _ (by decide : ("route" : String) ≠ "inbounds"),
    lookup_if_insert _ _ _ _ _ (by decide : ("route" : String) ≠ "dns"),
    lookup_if_insert _ _ _ _ _ (by decide : ("route" : String) ≠ "log"),
    lookup_objInsert_ne _ _ _ _ (by decide : ("route" : String) ≠ "outbounds")]

theorem assemble_config_route_on (fields : List (String × JVal)) (outs : List JVal)
    (rsl : Bool) (lp rp : String) (mode : ProxyMode) (rules : List AppRule)
    (hm : mode ≠ .off) :
    jGet (assemble_config fields outs rsl lp rp mode rules) "route"
      = some (route_value mode rules rsl rp) := by
  unfold assemble_config
  simp only [jGet, if_neg hm]
  exact lookup_objInsert _ _ _

/-! ## Lemmas about outbound synthesis -/

theorem tags_of_modifyIdx_preserve (outs : List JVal) (i : Nat) (f : JVal → JVal)
    (hf : ∀ o, jGetStr (f o) "tag" = jGetStr o "tag") :
    tags_of (modifyIdx outs i f) = tags_of outs := by
  induction outs generalizing i with
  | nil => rfl
  | cons x rest ih =>
    cases i with
    | zero =>
      show tags_of (f x :: rest) = tags_of (x :: rest)
      rw [tags_of_cons, tags_of_cons, hf x]
    | succ i =>
      show tags_of (x :: modifyIdx rest i f) = tags_of (x :: rest)
      rw [tags_of_cons, tags_of_cons, ih i]

/-- The selector branch (lib.rs:570-581) leaves the tag list unchanged. -/
theorem synth_selector_tags (outs : List JVal) (active : Option String) (i : Nat)
    (hidx : outs.findIdx? is_proxy_tagged = some i)
    (htype : (match outs.get? i with
      | some o => (jGetStr o "type").getD ""
      | none => "") = "selector") :
    ∃ outs1, synth_outbounds outs active = .ok (outs1, tags_of outs) ∧
      tags_of outs1 = tags_of outs := by
  have hset : ∀ (l : List JVal) (k : String) (v : JVal), k ≠ "tag" →
      tags_of (modifyIdx l i (fun o => jSet o k v)) = tags_of l := by
    intro l k v hk
    exact tags_of_modifyIdx_preserve l i _ (fun o => jGetStr_jSet_ne o k "tag" v
      (fun he => hk he.symm))
  unfold synth_outbounds
  rw [hidx]
  simp only [htype, if_pos rfl]
  refine ⟨_, rfl, ?_⟩
  cases active with
  | none =>
    simp only []
    split
    · rfl
    · exact hset _ _ _ (by decide)
  | some t =>
    simp only []
    rw [hset _ _ _ (by decide)]
    split
    · rfl
    · exact hset _ _ _ (by decide)

/-- The concrete-`proxy` wrap branch (lib.rs:582-610): taken exactly when an
active tag is resolved and more than one tag exists. -/
theorem synth_concrete_wrap (outs : List JVal) (i : Nat) (a : String)
    (hidx : outs.findIdx? is_proxy_tagged = some i)
    (htype : (match outs.get? i with
      | some o => (jGetStr o "type").getD ""
      | none => "") ≠ "selector")
    (hlen : 1 < (tags_of outs).length) :
    ∃ pre o post,
      outs = pre ++ o :: post ∧ pre.length = i ∧ jGetStr o "tag" = some "proxy" ∧
      tags_of (pre ++ jSet o "tag" (.str (unique_tag "proxy-origin" (tags_of outs))) :: post)
        = tags_of pre ++ unique_tag "proxy-origin" (tags_of outs) :: tags_of post ∧
      synth_outbounds outs (some a) = .ok
        ((pre ++ jSet o "tag" (.str (unique_tag "proxy-origin" (tags_of outs))) :: post)
           ++ [selector_of ((tags_of (pre ++ jSet o "tag"
                 (.str (unique_tag "proxy-origin" (tags_of outs))) :: post)).filter
                   is_nonreserved) a],
         tags_of ((pre ++ jSet o "tag" (.str (unique_tag "proxy-origin" (tags_of outs))) :: post)
           ++ [selector_of ((tags_of (pre ++ jSet o "tag"
                 (.str (unique_tag "proxy-origin" (tags_of outs))) :: post)).filter
                   is_nonreserved) a])) := by
  rcases findIdx_proxy_inv hidx with ⟨o, hget, htag⟩
  have hlt : i < outs.length := by
    rcases List.get?_eq_some.mp hget with ⟨hl, _⟩
    exact hl
  rcases modifyIdx_eq_append outs i (fun o => jSet o "tag"
    (.str (unique_tag "proxy-origin" (tags_of outs)))) hlt with ⟨pre, o', post, hsplit, hplen, hmod⟩
  have hgo : outs.get? i = some o' := by
    rw [hsplit, ← hplen, List.get?_eq_getElem?]
    rw [List.getElem?_append_right (le_refl pre.length)]
    simp
  have ho' : o' = o := Option.some.inj (hgo ▸ hget)
  have htag' : jGetStr o' "tag" = some "proxy" := by rw [ho']; exact htag
  have hobj' : is_obj o' = true := is_obj_of_jGetStr htag'
  refine ⟨pre, o', post, hsplit, hplen, htag', ?_⟩
  have htags1 : tags_of (pre ++ jSet o' "tag"
      (.str (unique_tag "proxy-origin" (tags_of outs))) :: post)
      = tags_of pre ++ unique_tag "proxy-origin" (tags_of outs) :: tags_of post := by
    rw [tags_of_append, tags_of_cons, jGetStr_jSet_tag o' hobj']
  refine ⟨htags1, ?_⟩
  have hne : unique_tag "proxy-origin" (tags_of outs)
      ∈ (tags_of (pre ++ jSet o' "tag"
        (.str (unique_tag "proxy-origin" (tags_of outs))) :: post)).filter is_nonreserved := by
    apply List.mem_filter.mpr
    refine ⟨?_, unique_tag_proxy_origin_nonreserved (tags_of outs)⟩
    rw [htags1]
    exact List.mem_append_right _ (List.mem_cons_self _ _)
  have hstags : ((tags_of (pre ++ jSet o' "tag"
      (.str (unique_tag "proxy-origin" (tags_of outs))) :: post)).filter
        is_nonreserved).isEmpty = false := by
    cases hs : (tags_of (pre ++ jSet o' "tag"
        (.str (unique_tag "proxy-origin" (tags_of outs))) :: post)).filter is_nonreserved with
    | nil => rw [hs] at hne; simp at hne
    | cons x rest => rfl
  have hns : ((some a).isSome && decide ((tags_of outs).length > 1)) = true := by
    simp
    omega
  unfold synth_outbounds
  rw [hidx]
  dsimp only
  rw [if_neg htype, if_pos hns, hmod]
  rw [if_neg (by rw [hstags]; exact Bool.false_ne_true)]
  rfl

/-- The concrete-`proxy` fall-through (lib.rs:582, 611): with no resolved
active tag or a single tag, the outbound list is returned unchanged. -/
theorem synth_concrete_skip (outs : List JVal) (active : Option String) (i : Nat)
    (hidx : outs.findIdx? is_proxy_tagged = some i)
    (htype : (match outs.get? i with
      | some o => (jGetStr o "type").getD ""
      | none => "") ≠ "selector")
    (hns : (active.isSome && decide ((tags_of outs).length > 1)) = false) :
    synth_outbounds outs active = .ok (outs, tags_of outs) := by
  unfold synth_outbounds
  rw [hidx]
  dsimp only
  rw [if_neg htype, if_neg (by rw [hns]; exact Bool.false_ne_true)]

/-- The no-`proxy` branch, empty member case (lib.rs:611-620). -/
theorem synth_no_proxy_err (outs : List JVal) (active : Option String)
    (hidx : outs.findIdx? is_proxy_tagged = none)
    (hfil : ((tags_of outs).filter is_nonreserved).isEmpty = true) :
    synth_outbounds outs active = .error "PROFILE_OUTBOUNDS_MISSING|no proxy outbounds" := by
  unfold synth_outbounds
  rw [hidx]
  dsimp only
  rw [if_pos hfil]

/-- The no-`proxy` branch, success case (lib.rs:611-632). -/
theorem synth_no_proxy_ok (outs : List JVal) (active : Option String)
    (hidx : outs.findIdx? is_proxy_tagged = none)
    (hfil : ((tags_of outs).filter is_nonreserved).isEmpty = false) :
    synth_outbounds outs active = .ok
      (outs ++ [selector_of ((tags_of outs).filter is_nonreserved)
         (active.getD ((tags_of outs).headD ""))],
       tags_of (outs ++ [selector_of ((tags_of outs).filter is_nonreserved)
         (active.getD ((tags_of outs).headD ""))])) := by
  unfold synth_outbounds
  rw [hidx]
  dsimp only
  rw [if_neg (by rw [hfil]; exact Bool.false_ne_true)]

/-- `build_config` on a well-formed profile, expressed through
`synth_outbounds` and `assemble_config`. -/
theorem build_config_eq (fields : List (String × JVal)) (outs : List JVal)
    (act : Option String) (rsl : Bool) (lp rp : String) (mode : ProxyMode)
    (rules : List AppRule)
    (hlk : fields.lookup "outbounds" = some (.arr outs))
    (hne : (tags_of outs).isEmpty = false) :
    build_config (.obj fields) act rsl lp rp mode rules =
      match synth_outbounds outs (resolve_active act (tags_of outs)) with
      | .error e => .error e
      | .ok (outs1, tags1) =>
        .ok (assemble_config fields (ensure_direct outs1 tags1) rsl lp rp mode rules) := by
  unfold build_config
  dsimp only
  rw [hlk]
  dsimp only
  rw [if_neg (by rw [hne]; exact Bool.false_ne_true)]

/-- Inversion of a successful `build_config`. -/
theorem build_config_ok_inv {profile : JVal} {act : Option String} {rsl : Bool}
    {lp rp : String} {mode : ProxyMode} {rules : List AppRule} {cfg : JVal}
    (h : build_config profile act rsl lp rp mode rules = .ok cfg) :
    ∃ fields outs outs1 tags1,
      profile = .obj fields ∧
      fields.lookup "outbounds" = some (.arr outs) ∧
      (tags_of outs).isEmpty = false ∧
      synth_outbounds outs (resolve_active act (tags_of outs)) = .ok (outs1, tags1) ∧
      cfg = assemble_config fields (ensure_direct outs1 tags1) rsl lp rp mode rules := by
  cases profile with
  | obj fields =>
    cases hlk : fields.lookup "outbounds" with
    | none => unfold build_config at h; dsimp only at h; rw [hlk] at h; dsimp only at h; exact absurd h (by simp)
    | some v =>
      cases v with
      | arr outs =>
        cases hne : (tags_of outs).isEmpty with
        | true =>
          unfold build_config at h
          dsimp only at h
          rw [hlk] at h
          dsimp only at h
          rw [if_pos hne] at h
          exact absurd h (by simp)
        | false =>
          rw [build_config_eq fields outs act rsl lp rp mode rules hlk hne] at h
          cases hsy : synth_outbounds outs (resolve_active act (tags_of outs)) with
          | error e => rw [hsy] at h; exact absurd h (by simp)
          | ok pr =>
            obtain ⟨outs1, tags1⟩ := pr
            rw [hsy] at h
            dsimp only at h
            exact ⟨fields, outs, outs1, tags1, rfl, hlk, hne, hsy,
              (Except.ok.inj h).symm⟩
      | null => unfold build_config at h; dsimp only at h; rw [hlk] at h; dsimp only at h; exact absurd h (by simp)
      | bool b => unfold build_config at h; dsimp only at h; rw [hlk] at h; dsimp only at h; exact absurd h (by simp)
      | num n => unfold build_config at h; dsimp only at h; rw [hlk] at h; dsimp only at h; exact absurd h (by simp)
      | str s => unfold build_config at h; dsimp only at h; rw [hlk] at h; dsimp only at h; exact absurd h (by simp)
      | obj f2 => unfold build_config at h; dsimp only at h; rw [hlk] at h; dsimp only at h; exact absurd h (by simp)
  | null => exact absurd h (by simp [build_config])
  | bool b => exact absurd h (by simp [build_config])
  | num n => exact absurd h (by simp [build_config])
  | str s => exact absurd h (by simp [build_config])
  | arr l => exact absurd h (by simp [build_config])

/-- C4 fails on the code: a profile whose document already contains a
`route` key keeps it in `Off` mode, since `build_config` only refrains from
inserting one (lib.rs:737-739) and never removes the user's. -/
theorem c4_counterexample : ¬ C4Stated := by
  intro h
  have hc : (build_config (.obj routeProfileFields) none false "L" "R" .off []).map
      (fun cfg => (jGet cfg "route").isSome) = .ok true := by rfl
  cases hb : build_config (.obj routeProfileFields) none false "L" "R" .off [] with
  | error e => rw [hb] at hc; exact absurd hc (by simp [Except.map])
  | ok cfg =>
    have hr := h _ none false "L" "R" [] cfg hb
    rw [hb] at hc
    simp only [Except.map] at hc
    rw [hr] at hc
    exact absurd hc (by simp)

/-- C4 (amended): in `Off` mode `build_config` inserts no routing section;
the written document's `route` entry is exactly the input profile's own
(absent unless the user profile supplied one). -/
theorem c4_off_route_passthrough (fields : List (String × JVal))
    (act : Option String) (rsl : Bool) (lp rp : String) (rules : List AppRule)
    (cfg : JVal)
    (h : build_config (.obj fields) act rsl lp rp .off rules = .ok cfg) :
    jGet cfg "route" = fields.lookup "route" := by
  rcases build_config_ok_inv h with ⟨fields', outs, outs1, tags1, hpf, hlk, hne, hsy, hcfg⟩
  have hf : fields' = fields := by
    injection hpf with h'
    exact h'.symm
  subst hf
  rw [hcfg]
  exact assemble_config_route_off _ _ _ _ _ _

theorem c4_off_route_passthrough_witness :
    build_config (.obj routeProfileFields) none false "L" "R" .off []
      = .ok (okOr (build_config (.obj routeProfileFields) none false "L" "R" .off [])) ∧
    jGet (okOr (build_config (.obj routeProfileFields) none false "L" "R" .off [])) "route"
      = routeProfileFields.lookup "route" :=
  ⟨by rfl, c4_off_route_passthrough _ _ _ _ _ _ _ (by rfl)⟩

/-- C7: one rotation step on a log file larger than the 8 MiB maximum
rewrites it to exactly its trailing 6 MiB; at or below the maximum nothing
changes and no rotation is reported. -/
theorem c7_log_rotation (content : List Nat)
    (h : LOG_MAX_BYTES < content.length) :
    trim_log_file content LOG_KEEP_BYTES LOG_MAX_BYTES
      = (content.drop (content.length - LOG_KEEP_BYTES), true) ∧
    (content.drop (content.length - LOG_KEEP_BYTES)).length = LOG_KEEP_BYTES ∧
    content.take (content.length - LOG_KEEP_BYTES)
      ++ content.drop (content.length - LOG_KEEP_BYTES) = content ∧
    (∀ small : List Nat, small.length ≤ LOG_MAX_BYTES →
      trim_log_file small LOG_KEEP_BYTES LOG_MAX_BYTES = (small, false)) := by
  have hk : LOG_KEEP_BYTES < LOG_MAX_BYTES := by
    unfold LOG_KEEP_BYTES LOG_MAX_BYTES
    omega
  have hmin : min LOG_KEEP_BYTES content.length = LOG_KEEP_BYTES :=
    min_eq_left (by omega)
  refine ⟨?_, ?_, ?_, ?_⟩
  · unfold trim_log_file
    rw [if_neg (by omega)]
    rw [hmin]
  · rw [List.length_drop]
    omega
  · exact List.take_append_drop _ _
  · intro small hs
    unfold trim_log_file
    rw [if_pos hs]

theorem c7_log_rotation_witness :
    LOG_MAX_BYTES < (List.replicate (LOG_MAX_BYTES + 1) 0).length ∧
    (trim_log_file (List.replicate (LOG_MAX_BYTES + 1) 0) LOG_KEEP_BYTES LOG_MAX_BYTES
      = ((List.replicate (LOG_MAX_BYTES + 1) 0).drop
          ((List.replicate (LOG_MAX_BYTES + 1) 0).length - LOG_KEEP_BYTES), true) ∧
    ((List.replicate (LOG_MAX_BYTES + 1) 0).drop
        ((List.replicate (LOG_MAX_BYTES + 1) 0).length - LOG_KEEP_BYTES)).length
      = LOG_KEEP_BYTES ∧
    (List.replicate (LOG_MAX_BYTES + 1) 0).take
        ((List.replicate (LOG_MAX_BYTES + 1) 0).length - LOG_KEEP_BYTES)
      ++ (List.replicate (LOG_MAX_BYTES + 1) 0).drop
        ((List.replicate (LOG_MAX_BYTES + 1) 0).length - LOG_KEEP_BYTES)
      = List.replicate (LOG_MAX_BYTES + 1) 0 ∧
    (∀ small : List Nat, small.length ≤ LOG_MAX_BYTES →
      trim_log_file small LOG_KEEP_BYTES LOG_MAX_BYTES = (small, false))) :=
  ⟨by rw [List.length_replicate]; omega,
   c7_log_rotation _ (by rw [List.length_replicate]; omega)⟩

/-- C3 fails on the code: for a selector-type `proxy` endpoint with no
non-reserved tags the selector branch silently skips the member update
(lib.rs:576-581) and synthesis succeeds. -/
theorem c3_counterexample : ¬ C3Stated := by
  intro h
  rcases h selectorOnlyFields
      [.obj [("type", .str "selector"), ("tag", .str "proxy")]]
      none false "L" "R" .selected [] rfl
      ⟨.obj [("type", .str "selector"), ("tag", .str "proxy")], by simp, rfl⟩
      rfl with ⟨detail, he⟩
  have hok : build_config (.obj selectorOnlyFields) none false "L" "R" .selected []
      = .ok (okOr (build_config (.obj selectorOnlyFields) none false "L" "R" .selected [])) := by
    rfl
  rw [hok] at he
  exact Except.noConfusion he

/-- C3 (amended): the `ProfileOutboundsMissing` no-proxy-outbounds failure
occurs exactly in the branch that builds a fresh selector because no
endpoint is tagged `proxy`; whenever a `proxy`-tagged endpoint exists,
synthesis succeeds (a selector keeps its member list unchanged when the
non-reserved set is empty, and a wrapped concrete endpoint contributes its
renamed tag as a member). -/
theorem c3_outbounds_missing_amended :
    (∀ (fields : List (String × JVal)) (outs : List JVal) (act : Option String)
      (rsl : Bool) (lp rp : String) (mode : ProxyMode) (rules : List AppRule)
      (i : Nat),
      fields.lookup "outbounds" = some (.arr outs) →
      outs.findIdx? is_proxy_tagged = some i →
      ∃ cfg, build_config (.obj fields) act rsl lp rp mode rules = .ok cfg) ∧
    (∀ (fields : List (String × JVal)) (outs : List JVal) (act : Option String)
      (rsl : Bool) (lp rp : String) (mode : ProxyMode) (rules : List AppRule),
      fields.lookup "outbounds" = some (.arr outs) →
      (tags_of outs).isEmpty = false →
      outs.findIdx? is_proxy_tagged = none →
      ((tags_of outs).filter is_nonreserved).isEmpty = true →
      build_config (.obj fields) act rsl lp rp mode rules
        = .error "PROFILE_OUTBOUNDS_MISSING|no proxy outbounds") := by
  constructor
  · intro fields outs act rsl lp rp mode rules i hlk hidx
    have hmem : "proxy" ∈ tags_of outs := tags_of_proxy_mem hidx
    have hne : (tags_of outs).isEmpty = false := by
      cases ht : tags_of outs with
      | nil => rw [ht] at hmem; simp at hmem
      | cons x rest => rfl
    rw [build_config_eq fields outs act rsl lp rp mode rules hlk hne]
    by_cases htype : (match outs.get? i with
        | some o => (jGetStr o "type").getD ""
        | none => "") = "selector"
    · rcases synth_selector_tags outs (resolve_active act (tags_of outs)) i hidx htype with
        ⟨outs1, hsy, _⟩
      rw [hsy]
      exact ⟨_, rfl⟩
    · cases hns : ((resolve_active act (tags_of outs)).isSome
          && decide ((tags_of outs).length > 1)) with
      | false =>
        rw [synth_concrete_skip outs (resolve_active act (tags_of outs)) i hidx htype hns]
        exact ⟨_, rfl⟩
      | true =>
        have hsome : (resolve_active act (tags_of outs)).isSome = true :=
          (Bool.and_eq_true _ _).mp hns |>.1
        rcases Option.isSome_iff_exists.mp hsome with ⟨a, ha⟩
        have hlen : 1 < (tags_of outs).length := by
          have := (Bool.and_eq_true _ _).mp hns |>.2
          simpa using this
        rcases synth_concrete_wrap outs i a hidx htype hlen with
          ⟨pre, o, post, _, _, _, _, hsy⟩
        rw [ha, hsy]
        exact ⟨_, rfl⟩
  · intro fields outs act rsl lp rp mode rules hlk hne hidx hfil
    rw [build_config_eq fields outs act rsl lp rp mode rules hlk hne]
    rw [synth_no_proxy_err outs (resolve_active act (tags_of outs)) hidx hfil]

theorem c3_outbounds_missing_amended_witness :
    (selectorOnlyFields.lookup "outbounds"
      = some (.arr [.obj [("type", .str "selector"), ("tag", .str "proxy")]]) ∧
     (([.obj [("type", .str "selector"), ("tag", .str "proxy")]] : List JVal).findIdx?
        is_proxy_tagged = some 0) ∧
     (∃ cfg, build_config (.obj selectorOnlyFields) none false "L" "R" .selected []
        = .ok cfg)) ∧
    (([("outbounds", .arr [.obj [("type", .str "direct"), ("tag", .str "direct")]])]
        : List (String × JVal)).lookup "outbounds"
      = some (.arr [.obj [("type", .str "direct"), ("tag", .str "direct")]]) ∧
     build_config (.obj [("outbounds",
        .arr [.obj [("type", .str "direct"), ("tag", .str "direct")]])])
        none false "L" "R" .selected []
      = .error "PROFILE_OUTBOUNDS_MISSING|no proxy outbounds") :=
  ⟨⟨rfl, rfl, c3_outbounds_missing_amended.1 selectorOnlyFields _ none false "L" "R"
      .selected [] 0 rfl rfl⟩,
   ⟨rfl, c3_outbounds_missing_amended.2 _ _ none false "L" "R" .selected []
      rfl rfl rfl rfl⟩⟩

/-- Outbound synthesis neither adds nor removes a `direct`-*tagged* entry:
the returned `tags` variable and the tag list of the returned outbounds
mention `"direct"` exactly when the input did. -/
theorem synth_direct_mem (outs : List JVal) (active : Option String)
    (outs1 : List JVal) (tags1 : List String)
    (h : synth_outbounds outs active = .ok (outs1, tags1)) :
    (("direct" ∈ tags1) ↔ ("direct" ∈ tags_of outs)) ∧
    (("direct" ∈ tags_of outs1) ↔ ("direct" ∈ tags_of outs)) := by
  cases hidx : outs.findIdx? is_proxy_tagged with
  | none =>
    cases hfil : ((tags_of outs).filter is_nonreserved).isEmpty with
    | true =>
      rw [synth_no_proxy_err outs active hidx hfil] at h
      exact absurd h (by simp)
    | false =>
      rw [synth_no_proxy_ok outs active hidx hfil] at h
      have h1 := congrArg Prod.fst (Except.ok.inj h)
      have h2 := congrArg Prod.snd (Except.ok.inj h)
      dsimp at h1 h2
      subst h1
      subst h2
      rw [tags_of_append]
      have hsel : tags_of [selector_of ((tags_of outs).filter is_nonreserved)
          (active.getD ((tags_of outs).headD ""))] = ["proxy"] := rfl
      rw [hsel]
      constructor <;>
      · constructor
        · intro hm
          rcases List.mem_append.mp hm with hm' | hm'
          · exact hm'
          · simp at hm'
        · intro hm
          exact List.mem_append_left _ hm
  | some i =>
    by_cases htype : (match outs.get? i with
        | some o => (jGetStr o "type").getD ""
        | none => "") = "selector"
    · rcases synth_selector_tags outs active i hidx htype with ⟨outs1', hsy, htg⟩
      rw [hsy] at h
      have h1 := congrArg Prod.fst (Except.ok.inj h)
      have h2 := congrArg Prod.snd (Except.ok.inj h)
      dsimp at h1 h2
      subst h1
      subst h2
      rw [htg]
      exact ⟨Iff.rfl, Iff.rfl⟩
    · cases hns : (active.isSome && decide ((tags_of outs).length > 1)) with
      | false =>
        rw [synth_concrete_skip outs active i hidx htype hns] at h
        have h1 := congrArg Prod.fst (Except.ok.inj h)
        have h2 := congrArg Prod.snd (Except.ok.inj h)
        dsimp at h1 h2
        subst h1
        subst h2
        exact ⟨Iff.rfl, Iff.rfl⟩
      | true =>
        have hsome : active.isSome = true := (Bool.and_eq_true _ _).mp hns |>.1
        rcases Option.isSome_iff_exists.mp hsome with ⟨a, ha⟩
        subst ha
        have hlen : 1 < (tags_of outs).length := by
          have := (Bool.and_eq_true _ _).mp hns |>.2
          simpa using this
        rcases synth_concrete_wrap outs i a hidx htype hlen with
          ⟨pre, o, post, hsplit, hplen, htag, htags1, hsy⟩
        rw [hsy] at h
        have h1 := congrArg Prod.fst (Except.ok.inj h)
        have h2 := congrArg Prod.snd (Except.ok.inj h)
        dsimp at h1 h2
        subst h1
        subst h2
        have htout : tags_of outs = tags_of pre ++ "proxy" :: tags_of post := by
          rw [hsplit, tags_of_append, tags_of_cons, htag]
        have hrd : unique_tag "proxy-origin" (tags_of outs) ≠ "direct" :=
          unique_tag_ne_direct _ _ (by decide)
        have hsel : tags_of [selector_of ((tags_of (pre ++ jSet o "tag"
            (.str (unique_tag "proxy-origin" (tags_of outs))) :: post)).filter
              is_nonreserved) a] = ["proxy"] := rfl
        rw [tags_of_append, hsel, htags1]
        constructor <;>
        · nth_rewrite 2 [htout]
          simp only [List.mem_append, List.mem_cons, List.mem_singleton]
          constructor
          · intro hm
            rcases hm with hm | hm
            · rcases hm with hm | hm
              · exact Or.inl hm
              · rcases hm with hm | hm
                · exact absurd hm.symm hrd
                · exact Or.inr (Or.inr hm)
            · simp at hm
          · intro hm
            rcases hm with hm | hm
            · exact Or.inl (Or.inl hm)
            · rcases hm with hm | hm
              · simp at hm
              · exact Or.inl (Or.inr (Or.inr hm))

theorem string_contains_iff (l : List String) (a : String) :
    l.contains a = true ↔ a ∈ l := by
  simp [List.contains_eq_any_beq, List.any_eq_true]

/-- C10 fails on the code: the check at lib.rs:634 looks only at the *tag*
`direct`, so a socks endpoint tagged `direct` suppresses the default and
the generated list has no direct-type endpoint tagged `direct`. -/
theorem c10_counterexample : ¬ C10Stated := by
  intro h
  have hh := h socksDirectFields
      [.obj [("type", .str "socks"), ("tag", .str "direct")],
       .obj [("type", .str "socks"), ("tag", .str "x")]]
      none false "L" "R" .selected []
      (okOr (build_config (.obj socksDirectFields) none false "L" "R" .selected []))
      [.obj [("type", .str "socks"), ("tag", .str "direct")],
       .obj [("type", .str "socks"), ("tag", .str "x")],
       selector_of ["x"] "direct"]
      rfl rfl rfl
  rcases hh.1 with ⟨o, ho, htag, htype⟩
  simp only [List.mem_cons, List.mem_singleton] at ho
  rcases ho with rfl | rfl | ho
  · exact absurd htype (by decide)
  · exact absurd htag (by decide)
  · rcases ho with rfl | ho
    · exact absurd htag (by decide)
    · simp at ho

/-- C10 (amended): the guarantee is by *tag*: the generated list always
holds an endpoint tagged `direct`, and when the input profile has no
`direct`-tagged endpoint of any type, exactly one default direct-type
endpoint tagged `direct` is appended at the end. -/
theorem c10_direct_by_tag (fields : List (String × JVal)) (outs : List JVal)
    (act : Option String) (rsl : Bool) (lp rp : String) (mode : ProxyMode)
    (rules : List AppRule) (cfg : JVal)
    (hlk : fields.lookup "outbounds" = some (.arr outs))
    (h : build_config (.obj fields) act rsl lp rp mode rules = .ok cfg) :
    ∃ fouts, jGet cfg "outbounds" = some (.arr fouts) ∧
      "direct" ∈ tags_of fouts ∧
      ("direct" ∉ tags_of outs →
        ∃ mid, fouts = mid ++ [default_direct] ∧ "direct" ∉ tags_of mid) := by
  rcases build_config_ok_inv h with ⟨fields', outs', outs1, tags1, hpf, hlk', hne, hsy, hcfg⟩
  have hf : fields = fields' := by injection hpf
  subst hf
  rw [hlk] at hlk'
  have ho : outs = outs' := by
    injection Option.some.inj hlk' with h'
  subst ho
  rcases synth_direct_mem outs _ outs1 tags1 hsy with ⟨hiff1, hiff2⟩
  by_cases hd : "direct" ∈ tags_of outs
  · have hc : tags1.contains "direct" = true :=
      (string_contains_iff _ _).mpr (hiff1.mpr hd)
    have hfouts : ensure_direct outs1 tags1 = outs1 := by
      unfold ensure_direct
      rw [if_pos hc]
    refine ⟨outs1, ?_, hiff2.mpr hd, fun hcon => absurd hd hcon⟩
    rw [hcfg, hfouts]
    exact assemble_config_outbounds _ _ _ _ _ _ _
  · have hc : tags1.contains "direct" = false := by
      cases hcc : tags1.contains "direct" with
      | false => rfl
      | true => exact absurd (hiff1.mp ((string_contains_iff _ _).mp hcc)) hd
    have hfouts : ensure_direct outs1 tags1 = outs1 ++ [default_direct] := by
      unfold ensure_direct
      rw [if_neg (by rw [hc]; exact Bool.false_ne_true)]
    refine ⟨outs1 ++ [default_direct], ?_, ?_,
      fun _ => ⟨outs1, rfl, fun hm => hd (hiff2.mp hm)⟩⟩
    · rw [hcfg, hfouts]
      exact assemble_config_outbounds _ _ _ _ _ _ _
    · rw [tags_of_append]
      exact List.mem_append_right _ (by simp [tags_of, default_direct, jGetStr, jGet, List.lookup])

theorem c10_direct_by_tag_witness :
    xOnlyFields.lookup "outbounds"
      = some (.arr [.obj [("type", .str "socks"), ("tag", .str "x")]]) ∧
    build_config (.obj xOnlyFields) none false "L" "R" .selected []
      = .ok (okOr (build_config (.obj xOnlyFields) none false "L" "R" .selected [])) ∧
    (∃ fouts, jGet (okOr (build_config (.obj xOnlyFields) none false "L" "R" .selected []))
        "outbounds" = some (.arr fouts) ∧
      "direct" ∈ tags_of fouts ∧
      ("direct" ∉ tags_of [.obj [("type", .str "socks"), ("tag", .str "x")]] →
        ∃ mid, fouts = mid ++ [default_direct] ∧ "direct" ∉ tags_of mid)) :=
  ⟨rfl, rfl, c10_direct_by_tag xOnlyFields _ none false "L" "R" .selected [] _ rfl rfl⟩

theorem modifyIdx_at_append (pre : List JVal) (o : JVal) (post : List JVal)
    (f : JVal → JVal) :
    modifyIdx (pre ++ o :: post) pre.length f = pre ++ f o :: post := by
  induction pre with
  | nil => rfl
  | cons x rest ih => simp [modifyIdx, ih]

theorem mem_ensure_direct {x : JVal} {l : List JVal} (tags : List String)
    (h : x ∈ l) : x ∈ ensure_direct l tags := by
  unfold ensure_direct
  split
  · exact h
  · exact List.mem_append_left _ h

/-- C1 fails on the code: with no active tag set, `needs_selector`
(lib.rs:569) is false and the concrete `proxy` endpoint is left untouched -
no rename, no appended selector. -/
theorem c1_counterexample : ¬ C1Stated := by
  intro h
  have hh := h concreteProxyFields
      [.obj [("type", .str "socks"), ("tag", .str "proxy")],
       .obj [("type", .str "socks"), ("tag", .str "x")]]
      0 none false "L" "R" .selected []
      (okOr (build_config (.obj concreteProxyFields) none false "L" "R" .selected []))
      [.obj [("type", .str "socks"), ("tag", .str "proxy")],
       .obj [("type", .str "socks"), ("tag", .str "x")],
       default_direct]
      rfl rfl (by decide) ⟨"x", by decide, by decide⟩ rfl rfl
  rcases hh with ⟨renamed, _, _, hsel⟩
  simp only [List.mem_cons, List.mem_singleton] at hsel
  have htypesel : ∀ (l : List String) (d : String),
      jGetStr (selector_of l d) "type" = some "selector" := fun _ _ => rfl
  rcases hsel with he | he | he | he
  · have := congrArg (fun v => jGetStr v "type") he
    dsimp only at this
    rw [htypesel] at this
    exact absurd this (by simp [jGetStr, jGet, List.lookup])
  · have := congrArg (fun v => jGetStr v "type") he
    dsimp only at this
    rw [htypesel] at this
    exact absurd this (by simp [jGetStr, jGet, List.lookup])
  · have := congrArg (fun v => jGetStr v "type") he
    dsimp only at this
    rw [htypesel] at this
    exact absurd this (by simp [jGetStr, jGet, List.lookup, default_direct])
  · simp at he

/-- C1 (amended): the concrete `proxy` endpoint is wrapped only when an
active tag resolves to an existing endpoint *and* the profile has more
than one tagged outbound; then it is renamed to the fresh unused
`proxy-origin`-derived tag and a selector tagged `proxy` over all
non-reserved tags is appended with the active tag as default.  With no
resolved active tag (or a single tag) the outbound list is left unchanged
apart from the `direct` guarantee; the renamed-endpoint-as-default case
never occurs. -/
theorem c1_concrete_wrap_amended (fields : List (String × JVal)) (outs : List JVal)
    (i : Nat) (act : Option String) (rsl : Bool) (lp rp : String)
    (mode : ProxyMode) (rules : List AppRule)
    (hlk : fields.lookup "outbounds" = some (.arr outs))
    (hidx : outs.findIdx? is_proxy_tagged = some i)
    (htype : (match outs.get? i with
      | some o => (jGetStr o "type").getD ""
      | none => "") ≠ "selector") :
    (∀ a, resolve_active act (tags_of outs) = some a → 1 < (tags_of outs).length →
      ∃ cfg fouts,
        build_config (.obj fields) act rsl lp rp mode rules = .ok cfg ∧
        jGet cfg "outbounds" = some (.arr fouts) ∧
        unique_tag "proxy-origin" (tags_of outs) ∉ tags_of outs ∧
        (∃ o ∈ fouts, jGetStr o "tag"
          = some (unique_tag "proxy-origin" (tags_of outs))) ∧
        selector_of ((tags_of (modifyIdx outs i (fun o => jSet o "tag"
            (.str (unique_tag "proxy-origin" (tags_of outs)))))).filter is_nonreserved)
          a ∈ fouts) ∧
    (resolve_active act (tags_of outs) = none →
      ∃ cfg, build_config (.obj fields) act rsl lp rp mode rules = .ok cfg ∧
        jGet cfg "outbounds" = some (.arr (ensure_direct outs (tags_of outs)))) := by
  have hmem : "proxy" ∈ tags_of outs := tags_of_proxy_mem hidx
  have hne : (tags_of outs).isEmpty = false := by
    cases ht : tags_of outs with
    | nil => rw [ht] at hmem; simp at hmem
    | cons x rest => rfl
  constructor
  · intro a ha hlen
    rcases synth_concrete_wrap outs i a hidx htype hlen with
      ⟨pre, o, post, hsplit, hplen, htag, htags1, hsy⟩
    have hobj : is_obj o = true := is_obj_of_jGetStr htag
    have hmod : modifyIdx outs i (fun x => jSet x "tag"
        (.str (unique_tag "proxy-origin" (tags_of outs))))
        = pre ++ jSet o "tag" (.str (unique_tag "proxy-origin" (tags_of outs))) :: post := by
      rw [hsplit, ← hplen]
      exact modifyIdx_at_append pre o post _
    have hbc : build_config (.obj fields) act rsl lp rp mode rules
        = .ok (assemble_config fields (ensure_direct
            ((pre ++ jSet o "tag" (.str (unique_tag "proxy-origin" (tags_of outs))) :: post)
              ++ [selector_of ((tags_of (pre ++ jSet o "tag"
                    (.str (unique_tag "proxy-origin" (tags_of outs))) :: post)).filter
                      is_nonreserved) a])
            (tags_of ((pre ++ jSet o "tag"
                (.str (unique_tag "proxy-origin" (tags_of outs))) :: post)
              ++ [selector_of ((tags_of (pre ++ jSet o "tag"
                    (.str (unique_tag "proxy-origin" (tags_of outs))) :: post)).filter
                      is_nonreserved) a])))
            rsl lp rp mode rules) := by
      rw [build_config_eq fields outs act rsl lp rp mode rules hlk hne, ha, hsy]
    refine ⟨_, _, hbc, assemble_config_outbounds _ _ _ _ _ _ _,
      unique_tag_not_mem _ _, ?_, ?_⟩
    · refine ⟨jSet o "tag" (.str (unique_tag "proxy-origin" (tags_of outs))), ?_,
        jGetStr_jSet_tag o hobj _⟩
      apply mem_ensure_direct
      apply List.mem_append_left
      exact List.mem_append_right _ (List.mem_cons_self _ _)
    · rw [hmod]
      apply mem_ensure_direct
      apply List.mem_append_right
      exact List.mem_cons_self _ _
  · intro ha
    have hns : ((resolve_active act (tags_of outs)).isSome
        && decide ((tags_of outs).length > 1)) = false := by
      rw [ha]
      rfl
    have hbc : build_config (.obj fields) act rsl lp rp mode rules
        = .ok (assemble_config fields (ensure_direct outs (tags_of outs))
            rsl lp rp mode rules) := by
      rw [build_config_eq fields outs act rsl lp rp mode rules hlk hne,
        synth_concrete_skip outs (resolve_active act (tags_of outs)) i hidx htype hns]
    exact ⟨_, hbc, assemble_config_outbounds _ _ _ _ _ _ _⟩

theorem c1_concrete_wrap_amended_witness :
    (concreteProxyFields.lookup "outbounds" = some (.arr concreteProxyOuts) ∧
     concreteProxyOuts.findIdx? is_proxy_tagged = some 0 ∧
     (match concreteProxyOuts.get? 0 with
       | some o => (jGetStr o "type").getD ""
       | none => "") ≠ "selector" ∧
     resolve_active (some "x") (tags_of concreteProxyOuts) = some "x" ∧
     1 < (tags_of concreteProxyOuts).length ∧
     (∃ cfg fouts,
       build_config (.obj concreteProxyFields) (some "x") false "L" "R" .selected []
         = .ok cfg ∧
       jGet cfg "outbounds" = some (.arr fouts) ∧
       unique_tag "proxy-origin" (tags_of concreteProxyOuts)
         ∉ tags_of concreteProxyOuts ∧
       (∃ o ∈ fouts, jGetStr o "tag"
         = some (unique_tag "proxy-origin" (tags_of concreteProxyOuts))) ∧
       selector_of ((tags_of (modifyIdx concreteProxyOuts 0 (fun o => jSet o "tag"
           (.str (unique_tag "proxy-origin" (tags_of concreteProxyOuts)))))).filter
             is_nonreserved) "x" ∈ fouts)) ∧
    (resolve_active none (tags_of concreteProxyOuts) = none ∧
     (∃ cfg,
       build_config (.obj concreteProxyFields) none false "L" "R" .selected []
         = .ok cfg ∧
       jGet cfg "outbounds"
         = some (.arr (ensure_direct concreteProxyOuts (tags_of concreteProxyOuts))))) :=
  ⟨⟨rfl, rfl, by decide, rfl, by decide,
    (c1_concrete_wrap_amended concreteProxyFields concreteProxyOuts 0 (some "x")
      false "L" "R" .selected [] rfl rfl (by decide)).1 "x" rfl (by decide)⟩,
   ⟨rfl,
    (c1_concrete_wrap_amended concreteProxyFields concreteProxyOuts 0 none
      false "L" "R" .selected [] rfl rfl (by decide)).2 rfl⟩⟩

/-- Full characterization of the `append_outbounds` descriptor loop: the
existing outbounds are kept, each object descriptor is appended with a
unique tag (fresh against the profile tags and all earlier batch tags),
non-objects are reported, and the first appended tag is recorded. -/
theorem append_loop_spec (news : List JVal) :
    ∀ (outs : List JVal) (used : List String) (added : Nat) (errs : List String)
      (fa : Option String),
    ∃ newObjs : List JVal,
      append_loop news outs used added errs fa
        = (outs ++ newObjs,
           used ++ tags_of newObjs,
           added + newObjs.length,
           errs ++ (news.filter (fun ob => !is_obj ob)).map
             (fun _ => "Invalid outbound object"),
           (match fa with
            | some t => some t
            | none => (tags_of newObjs).head?)) ∧
      newObjs.length = (news.filter is_obj).length ∧
      (tags_of newObjs).length = newObjs.length ∧
      (∀ k t, (tags_of newObjs).get? k = some t →
        t ∉ used ++ (tags_of newObjs).take k) := by
  induction news with
  | nil =>
    intro outs used added errs fa
    refine ⟨[], ?_, rfl, rfl, ?_⟩
    · show (outs, used, added, errs, fa) = _
      cases fa <;> simp [tags_of]
    · intro k t ht
      simp [tags_of] at ht
  | cons ob rest ih =>
    intro outs used added errs fa
    cases hobj : is_obj ob with
    | true =>
      rcases ih (outs ++ [jSet ob "tag" (.str (unique_tag
          (guess_tag ob ((jGetStr ob "type").getD "profile")) used))])
          (used ++ [unique_tag (guess_tag ob ((jGetStr ob "type").getD "profile")) used])
          (added + 1) errs
          (match fa with
           | none => some (unique_tag (guess_tag ob ((jGetStr ob "type").getD "profile")) used)
           | some t => some t)
        with ⟨newObjs', heq, hlen, htlen, hfresh⟩
      have htag1 : jGetStr (jSet ob "tag" (.str (unique_tag
          (guess_tag ob ((jGetStr ob "type").getD "profile")) used))) "tag"
          = some (unique_tag (guess_tag ob ((jGetStr ob "type").getD "profile")) used) :=
        jGetStr_jSet_tag ob hobj _
      have htg : tags_of (jSet ob "tag" (.str (unique_tag
          (guess_tag ob ((jGetStr ob "type").getD "profile")) used)) :: newObjs')
          = unique_tag (guess_tag ob ((jGetStr ob "type").getD "profile")) used
            :: tags_of newObjs' := by
        rw [tags_of_cons, htag1]
      refine ⟨jSet ob "tag" (.str (unique_tag
          (guess_tag ob ((jGetStr ob "type").getD "profile")) used)) :: newObjs',
        ?_, ?_, ?_, ?_⟩
      · show append_loop (ob :: rest) outs used added errs fa = _
        unfold append_loop
        rw [if_pos hobj]
        rw [heq, htg]
        have hfilter : (ob :: rest).filter (fun ob => !is_obj ob)
            = rest.filter (fun ob => !is_obj ob) := by
          simp [List.filter, hobj]
        rw [hfilter]
        refine congrArg₂ Prod.mk (by simp) ?_
        refine congrArg₂ Prod.mk (by simp) ?_
        refine congrArg₂ Prod.mk (by simp; omega) ?_
        refine congrArg₂ Prod.mk rfl ?_
        cases fa <;> simp
      · rw [List.length_cons, hlen]
        simp [List.filter, hobj]
      · rw [htg, List.length_cons, List.length_cons, htlen]
      · intro k t ht
        rw [htg] at ht ⊢
        cases k with
        | zero =>
          simp only [List.get?] at ht
          have : t = unique_tag (guess_tag ob ((jGetStr ob "type").getD "profile")) used :=
            (Option.some.inj ht).symm
          subst this
          simp only [List.take_zero, List.append_nil]
          exact unique_tag_not_mem _ _
        | succ k =>
          simp only [List.get?] at ht
          have := hfresh k t ht
          simp only [List.take_succ_cons]
          intro hmem
          apply this
          rw [List.append_cons] at hmem
          exact hmem
    | false =>
      rcases ih outs used added (errs ++ ["Invalid outbound object"]) fa
        with ⟨newObjs', heq, hlen, htlen, hfresh⟩
      refine ⟨newObjs', ?_, ?_, htlen, hfresh⟩
      · show append_loop (ob :: rest) outs used added errs fa = _
        unfold append_loop
        rw [if_neg (by rw [hobj]; exact Bool.false_ne_true)]
        rw [heq]
        have hfilter : (ob :: rest).filter (fun ob => !is_obj ob)
            = ob :: rest.filter (fun ob => !is_obj ob) := by
          simp [List.filter, hobj]
        rw [hfilter]
        refine congrArg₂ Prod.mk rfl ?_
        refine congrArg₂ Prod.mk rfl ?_
        refine congrArg₂ Prod.mk rfl ?_
        refine congrArg₂ Prod.mk (by simp) rfl
      · rw [hlen]
        simp [List.filter, hobj]

/-- C5 fails on the code: `set_active_profile` (lib.rs:1975-1981) persists
whatever tag the caller sends without checking that it names an existing
descriptor. -/
theorem c5_counterexample : ¬ C5Stated := by
  intro h
  have := h.1 [] "ghost" "ghost" rfl
  simp [tags_of] at this

/-- C5 (amended): deletion and import preserve the active-tag invariant,
and import establishes it for the newly selected first tag; explicit
selection establishes it only when the requested tag names an existing
descriptor - the command stores the tag unvalidated. -/
theorem c5_active_tag_invariant :
    (∀ (outs : List JVal) (tag : String), tag ∈ tags_of outs →
      active_tag_ok outs (set_active_profile tag)) ∧
    (∀ (fields : List (String × JVal)) (outs : List JVal) (act : Option String)
       (tag : String) (res : List JVal × Option String),
       fields.lookup "outbounds" = some (.arr outs) →
       active_tag_ok outs act →
       remove_outbound (.obj fields) act tag = .ok res →
       active_tag_ok res.1 res.2) ∧
    (∀ (fields : List (String × JVal)) (outs : List JVal) (act : Option String)
       (news : List JVal) (res : ImportResultM),
       fields.lookup "outbounds" = some (.arr outs) →
       active_tag_ok outs act →
       append_outbounds (.obj fields) act news = .ok res →
       active_tag_ok res.outbounds res.activeTag) := by
  refine ⟨?_, ?_, ?_⟩
  · intro outs tag hmem t ht
    have : tag = t := Option.some.inj ht
    subst this
    exact hmem
  · intro fields outs act tag res hlk hpre hrm
    unfold remove_outbound at hrm
    dsimp only at hrm
    rw [hlk] at hrm
    dsimp only at hrm
    have hres := (Except.ok.inj hrm).symm
    subst hres
    dsimp only
    cases hbeq : act == some tag with
    | true =>
      rw [if_pos rfl]
      intro t ht
      exact absurd ht (by simp)
    | false =>
      rw [if_neg Bool.false_ne_true]
      intro t ht
      subst ht
      rcases List.mem_filterMap.mp (hpre t rfl) with ⟨item, hitem, htagi⟩
      apply mem_tags_of (o := item)
      · apply List.mem_filter.mpr
        refine ⟨hitem, ?_⟩
        have htne : (t == tag) = false := by
          cases hq : t == tag with
          | false => rfl
          | true =>
            have : t = tag := by simpa using hq
            subst this
            simp at hbeq
        rw [htagi]
        simp only [Option.some.injEq, Bool.not_eq_true']
        simpa using htne
      · exact htagi
  · intro fields outs act news res hlk hpre happ
    rcases append_loop_spec news outs (tags_of outs) 0 [] none with
      ⟨newObjs, heq, _, _, _⟩
    unfold append_outbounds at happ
    dsimp only at happ
    rw [hlk] at happ
    dsimp only at happ
    rw [heq] at happ
    dsimp only at happ
    have hres := (Except.ok.inj happ).symm
    subst hres
    intro t ht
    dsimp only at ht
    rw [tags_of_append]
    cases act with
    | some u =>
      dsimp only at ht
      have : u = t := Option.some.inj ht
      subst this
      exact List.mem_append_left _ (hpre u rfl)
    | none =>
      dsimp only at ht
      apply List.mem_append_right
      rcases List.head?_eq_some_iff.mp ht with ⟨ys, hys⟩
      rw [hys]
      exact List.mem_cons_self _ _

theorem c5_active_tag_invariant_witness :
    (("x" ∈ tags_of [.obj [("type", .str "socks"), ("tag", .str "x")]]) ∧
     active_tag_ok [.obj [("type", .str "socks"), ("tag", .str "x")]]
       (set_active_profile "x")) ∧
    (xOnlyFields.lookup "outbounds"
       = some (.arr [.obj [("type", .str "socks"), ("tag", .str "x")]]) ∧
     active_tag_ok [.obj [("type", .str "socks"), ("tag", .str "x")]] (some "x") ∧
     remove_outbound (.obj xOnlyFields) (some "x") "x" = .ok ([], none) ∧
     active_tag_ok ([] : List JVal) none) ∧
    (xOnlyFields.lookup "outbounds"
       = some (.arr [.obj [("type", .str "socks"), ("tag", .str "x")]]) ∧
     active_tag_ok [.obj [("type", .str "socks"), ("tag", .str "x")]] none ∧
     append_outbounds (.obj xOnlyFields) none [.obj [("type", .str "vmess")]]
       = .ok (okOrImport (append_outbounds (.obj xOnlyFields) none
           [.obj [("type", .str "vmess")]])) ∧
     active_tag_ok (okOrImport (append_outbounds (.obj xOnlyFields) none
         [.obj [("type", .str "vmess")]])).outbounds
       (okOrImport (append_outbounds (.obj xOnlyFields) none
         [.obj [("type", .str "vmess")]])).activeTag) :=
  ⟨⟨by decide,
    c5_active_tag_invariant.1 _ "x" (by decide)⟩,
   ⟨rfl,
    by intro t ht; injection ht with h; subst h; decide,
    rfl,
    c5_active_tag_invariant.2.1 xOnlyFields
      [.obj [("type", .str "socks"), ("tag", .str "x")]] (some "x") "x" ([], none)
      rfl (by intro t ht; injection ht with h; subst h; decide) rfl⟩,
   ⟨rfl,
    by intro t ht; exact absurd ht (by simp),
    rfl,
    c5_active_tag_invariant.2.2 xOnlyFields
      [.obj [("type", .str "socks"), ("tag", .str "x")]] none
      [.obj [("type", .str "vmess")]] _
      rfl (by intro t ht; exact absurd ht (by simp)) rfl⟩⟩

/-- C8: a Monitor or Log-Tailer iteration that observes a generation-token
mismatch leaves the runtime state untouched, emits nothing and exits, and
every continuation of the task from that point performs no further write
or emission; conversely any state write or emission by a step implies its
captured token matched. -/
theorem c8_stale_token_inert (token : Nat) (st : ProxyStateM)
    (h : st.watchToken ≠ token) :
    (∀ poll, monitor_step token st poll = (st, [], false)) ∧
    (∀ polls, monitor_run token st polls = (st, [])) ∧
    (∀ pending newLines emitDue,
      tailer_step token st pending newLines emitDue = (pending, [], false)) ∧
    (∀ pending inputs, tailer_run token st pending inputs = (pending, [])) ∧
    (∀ (token' : Nat) (st' : ProxyStateM) (poll : ChildPoll),
      (monitor_step token' st' poll).1 ≠ st' ∨ (monitor_step token' st' poll).2.1 ≠ [] →
      st'.watchToken = token') := by
  refine ⟨?_, ?_, ?_, ?_, ?_⟩
  · intro poll
    unfold monitor_step
    rw [if_pos h]
  · intro polls
    cases polls with
    | nil => rfl
    | cons poll rest =>
      unfold monitor_run
      unfold monitor_step
      rw [if_pos h]
      rfl
  · intro pending newLines emitDue
    unfold tailer_step
    rw [if_pos h]
  · intro pending inputs
    cases inputs with
    | nil => rfl
    | cons input rest =>
      obtain ⟨newLines, emitDue⟩ := input
      unfold tailer_run
      unfold tailer_step
      rw [if_pos h]
      rfl
  · intro token' st' poll hw
    by_cases hm : st'.watchToken = token'
    · exact hm
    · exfalso
      unfold monitor_step at hw
      rw [if_pos hm] at hw
      rcases hw with hw | hw <;> exact hw rfl

theorem c8_stale_token_inert_witness :
    staleState.watchToken ≠ 2 ∧
    ((∀ poll, monitor_step 2 staleState poll = (staleState, [], false)) ∧
     (∀ polls, monitor_run 2 staleState polls = (staleState, [])) ∧
     (∀ pending newLines emitDue,
       tailer_step 2 staleState pending newLines emitDue = (pending, [], false)) ∧
     (∀ pending inputs, tailer_run 2 staleState pending inputs = (pending, [])) ∧
     (∀ (token' : Nat) (st' : ProxyStateM) (poll : ChildPoll),
       (monitor_step token' st' poll).1 ≠ st' ∨ (monitor_step token' st' poll).2.1 ≠ [] →
       st'.watchToken = token')) :=
  ⟨by decide, c8_stale_token_inert 2 staleState (by decide)⟩

theorem import_fold_spec (parse : String → Except String JVal) :
    ∀ (links : List String) (acc : List JVal × List String),
      links.foldl (fun (acc : List JVal × List String) (link : String) =>
        if (rust_trim_chars link.data).isEmpty then acc
        else
          match parse link with
          | .ok outbound => (acc.1 ++ [outbound], acc.2)
          | .error e => (acc.1, acc.2 ++ [link ++ ": " ++ e])) acc
      = (acc.1 ++ parsed_links parse links, acc.2 ++ link_errors parse links) := by
  intro links
  induction links with
  | nil =>
    intro acc
    simp [parsed_links, link_errors]
  | cons l rest ih =>
    intro acc
    rw [List.foldl_cons]
    cases hb : (rust_trim_chars l.data).isEmpty with
    | true =>
      rw [if_pos rfl, ih]
      have hb' : rust_trim_chars l.data = [] := by simpa using hb
      simp [parsed_links, link_errors, List.filterMap_cons, hb']
    | false =>
      rw [if_neg Bool.false_ne_true]
      have hb' : ¬ rust_trim_chars l.data = [] := by simpa using hb
      cases hp : parse l with
      | ok outbound =>
        dsimp only
        rw [ih]
        simp [parsed_links, link_errors, List.filterMap_cons, hb', hp, Except.toOption]
      | error e =>
        dsimp only
        rw [ih]
        simp [parsed_links, link_errors, List.filterMap_cons, hb', hp, Except.toOption]

theorem parsed_links_obj (parse : String → Except String JVal)
    (links : List String) (hobjs : ∀ l v, parse l = .ok v → is_obj v = true) :
    ∀ v ∈ parsed_links parse links, is_obj v = true := by
  intro v hv
  rcases List.mem_filterMap.mp hv with ⟨l, _, hl⟩
  cases hb : (rust_trim_chars l.data).isEmpty with
  | true => rw [if_pos hb] at hl; exact absurd hl (by simp)
  | false =>
    rw [if_neg (by rw [hb]; exact Bool.false_ne_true)] at hl
    cases hp : parse l with
    | ok w =>
      rw [hp] at hl
      simp only [Except.toOption, Option.some.injEq] at hl
      subst hl
      exact hobjs l w hp
    | error e => rw [hp] at hl; exact absurd hl (by simp [Except.toOption])

/-- C6: the import pipeline parses each link independently, fails with
`IMPORT_FAILED` exactly when no link parsed, merges every parsed endpoint
onto the existing profile with a tag fresh against the profile tags and
all earlier batch tags, returns the per-link errors alongside, and - when
no active tag was stored - selects the first newly merged tag. -/
theorem c6_import_pipeline (parse : String → Except String JVal)
    (fields : List (String × JVal)) (outs : List JVal) (act : Option String)
    (links : List String)
    (hlk : fields.lookup "outbounds" = some (.arr outs))
    (hobjs : ∀ l v, parse l = .ok v → is_obj v = true) :
    ((parsed_links parse links).isEmpty = true →
      ∃ msg, import_share_links parse (.obj fields) act links
        = .error ("IMPORT_FAILED|" ++ msg)) ∧
    ((parsed_links parse links).isEmpty = false →
      ∃ r newObjs,
        import_share_links parse (.obj fields) act links = .ok r ∧
        r.outbounds = outs ++ newObjs ∧
        newObjs.length = (parsed_links parse links).length ∧
        r.added = (parsed_links parse links).length ∧
        (tags_of newObjs).length = newObjs.length ∧
        (∀ k t, (tags_of newObjs).get? k = some t →
          t ∉ tags_of outs ++ (tags_of newObjs).take k) ∧
        r.errors = link_errors parse links ∧
        (act = none → r.activeTag = (tags_of newObjs).head?) ∧
        (∀ t, act = some t → r.activeTag = some t)) := by
  have hunf : import_share_links parse (.obj fields) act links
      = (if (parsed_links parse links).isEmpty then
          .error ("IMPORT_FAILED|" ++
            (if (link_errors parse links).isEmpty then "no valid links"
             else String.intercalate "\n" (link_errors parse links)))
        else
          match append_outbounds (.obj fields) act (parsed_links parse links) with
          | .ok result => .ok { result with errors := result.errors ++ link_errors parse links }
          | .error e => .error e) := by
    unfold import_share_links
    dsimp only
    rw [import_fold_spec parse links ([], [])]
    dsimp only [List.nil_append]
  constructor
  · intro hemp
    rw [hunf, if_pos hemp]
    exact ⟨_, rfl⟩
  · intro hemp
    rw [hunf, if_neg (by rw [hemp]; exact Bool.false_ne_true)]
    rcases append_loop_spec (parsed_links parse links) outs (tags_of outs) 0 [] none
      with ⟨newObjs, heq, hcount, htlen, hfresh⟩
    have happ : append_outbounds (.obj fields) act (parsed_links parse links)
        = .ok { outbounds := outs ++ newObjs,
                activeTag := match act with
                  | none => (tags_of newObjs).head?
                  | some t => some t,
                added := 0 + newObjs.length,
                errors := [] ++ ((parsed_links parse links).filter
                  (fun ob => !is_obj ob)).map (fun _ => "Invalid outbound object") } := by
      unfold append_outbounds
      dsimp only
      simp only [hlk]
      rw [heq]
      dsimp only
      cases act <;> rfl
    have hnoerr : ((parsed_links parse links).filter (fun ob => !is_obj ob)) = [] := by
      rw [List.filter_eq_nil_iff]
      intro v hv
      rw [parsed_links_obj parse links hobjs v hv]
      simp
    rw [happ]
    refine ⟨_, newObjs, rfl, rfl, ?_, ?_, htlen, ?_, ?_, ?_, ?_⟩
    · rw [hcount]
      congr 1
      rw [List.filter_eq_self]
      intro v hv
      exact parsed_links_obj parse links hobjs v hv
    · show 0 + newObjs.length = (parsed_links parse links).length
      rw [hcount]
      have : (parsed_links parse links).filter is_obj = parsed_links parse links := by
        rw [List.filter_eq_self]
        intro v hv
        exact parsed_links_obj parse links hobjs v hv
      rw [this]
      omega
    · exact hfresh
    · show [] ++ ((parsed_links parse links).filter
          (fun ob => !is_obj ob)).map (fun _ => "Invalid outbound object")
          ++ link_errors parse links = link_errors parse links
      rw [hnoerr]
      simp
    · intro ha
      subst ha
      rfl
    · intro t ha
      subst ha
      rfl

theorem vmessParse_obj : ∀ l v, vmessParse l = .ok v → is_obj v = true := by
  intro l v h
  unfold vmessParse at h
  split at h
  · injection h with h2
    rw [← h2]
    rfl
  · exact absurd h (by simp)

theorem c6_import_pipeline_witness :
    (emptyOutsFields.lookup "outbounds" = some (.arr ([] : List JVal)) ∧
     (parsed_links vmessParse ["a", "a", "bad"]).isEmpty = false) ∧
    (∃ r newObjs,
      import_share_links vmessParse (.obj emptyOutsFields) none ["a", "a", "bad"]
        = .ok r ∧
      r.outbounds = ([] : List JVal) ++ newObjs ∧
      newObjs.length = (parsed_links vmessParse ["a", "a", "bad"]).length ∧
      r.added = (parsed_links vmessParse ["a", "a", "bad"]).length ∧
      (tags_of newObjs).length = newObjs.length ∧
      (∀ k t, (tags_of newObjs).get? k = some t →
        t ∉ tags_of ([] : List JVal) ++ (tags_of newObjs).take k) ∧
      r.errors = link_errors vmessParse ["a", "a", "bad"] ∧
      ((none : Option String) = none → r.activeTag = (tags_of newObjs).head?) ∧
      (∀ t, (none : Option String) = some t → r.activeTag = some t)) :=
  ⟨⟨rfl, rfl⟩,
   (c6_import_pipeline vmessParse emptyOutsFields [] none ["a", "a", "bad"]
     rfl vmessParse_obj).2 rfl⟩

theorem mem_dedup_consec (l : List String) (a : String) :
    a ∈ dedup_consec l ↔ a ∈ l := by
  induction l with
  | nil => exact Iff.rfl
  | cons x rest ih =>
    cases rest with
    | nil => exact Iff.rfl
    | cons y t =>
      show a ∈ (if x = y then dedup_consec (y :: t) else x :: dedup_consec (y :: t)) ↔ _
      by_cases hxy : x = y
      · rw [if_pos hxy, ih, hxy]
        simp only [List.mem_cons]
        tauto
      · rw [if_neg hxy]
        simp only [List.mem_cons, ih]

theorem mem_sort_dedup (l : List String) (a : String) :
    a ∈ sort_dedup l ↔ a ∈ l := by
  unfold sort_dedup
  rw [mem_dedup_consec]
  exact (List.mergeSort_perm l _).mem_iff

theorem nrStep_mono (acc : List String × List String × List String × List String)
    (rule : AppRule) (a : String) :
    (a ∈ acc.1 → a ∈ (nrStep acc rule).1) ∧
    (a ∈ acc.2.1 → a ∈ (nrStep acc rule).2.1) ∧
    (a ∈ acc.2.2.1 → a ∈ (nrStep acc rule).2.2.1) ∧
    (a ∈ acc.2.2.2 → a ∈ (nrStep acc rule).2.2.2) := by
  obtain ⟨pp, dp, pn, dn⟩ := acc
  unfold nrStep
  dsimp only
  split
  · exact ⟨id, id, id, id⟩
  · cases rule.mode <;> dsimp only <;> split <;>
      exact ⟨fun h => by first | exact h | exact List.mem_append_left _ h,
             fun h => by first | exact h | exact List.mem_append_left _ h,
             fun h => by first | exact h | exact List.mem_append_left _ h,
             fun h => by first | exact h | exact List.mem_append_left _ h⟩

theorem nr_foldl_mono (rules : List AppRule)
    (acc : List String × List String × List String × List String) (a : String) :
    (a ∈ acc.1 → a ∈ (rules.foldl nrStep acc).1) ∧
    (a ∈ acc.2.1 → a ∈ (rules.foldl nrStep acc).2.1) ∧
    (a ∈ acc.2.2.1 → a ∈ (rules.foldl nrStep acc).2.2.1) ∧
    (a ∈ acc.2.2.2 → a ∈ (rules.foldl nrStep acc).2.2.2) := by
  induction rules generalizing acc with
  | nil => exact ⟨id, id, id, id⟩
  | cons r rest ih =>
    rw [List.foldl_cons]
    obtain ⟨h1, h2, h3, h4⟩ := nrStep_mono acc r a
    obtain ⟨g1, g2, g3, g4⟩ := ih (nrStep acc r)
    exact ⟨fun h => g1 (h1 h), fun h => g2 (h2 h),
           fun h => g3 (h3 h), fun h => g4 (h4 h)⟩

theorem nr_foldl_adds_direct (rules : List AppRule) (r : AppRule)
    (hm : r.mode = .direct) (hne : (norm_path r.path).isEmpty = false) :
    r ∈ rules → ∀ acc,
      norm_path r.path ∈ (rules.foldl nrStep acc).2.1 ∨
      norm_path r.path ∈ (rules.foldl nrStep acc).2.2.2 := by
  induction rules with
  | nil => intro hr; cases hr
  | cons x rest ih =>
    intro hr acc
    rw [List.foldl_cons]
    rcases List.mem_cons.mp hr with he | hmem
    · subst he
      obtain ⟨pp, dp, pn, dn⟩ := acc
      have hstep : norm_path r.path ∈ (nrStep (pp, dp, pn, dn) r).2.1 ∨
          norm_path r.path ∈ (nrStep (pp, dp, pn, dn) r).2.2.2 := by
        unfold nrStep
        dsimp only
        rw [if_neg (by rw [hne]; exact Bool.false_ne_true), hm]
        dsimp only
        split
        · right
          exact List.mem_append_right _ (List.mem_singleton.mpr rfl)
        · left
          exact List.mem_append_right _ (List.mem_singleton.mpr rfl)
      rcases hstep with h | h
      · exact Or.inl ((nr_foldl_mono rest _ _).2.1 h)
      · exact Or.inr ((nr_foldl_mono rest _ _).2.2.2 h)
    · exact ih hmem _

theorem normalize_rules_eq (rules : List AppRule) :
    normalize_rules rules =
      (sort_dedup (rules.foldl nrStep ([], [], [], [])).1,
       sort_dedup (rules.foldl nrStep ([], [], [], [])).2.1,
       sort_dedup (rules.foldl nrStep ([], [], [], [])).2.2.1,
       sort_dedup (rules.foldl nrStep ([], [], [], [])).2.2.2) := rfl

/-- An app rule of Direct mode with a nonempty normalized path lands in one
of the two direct buckets of `normalize_rules`. -/
theorem normalize_mem_direct (rules : List AppRule) (r : AppRule)
    (hr : r ∈ rules) (hm : r.mode = .direct)
    (hne : (norm_path r.path).isEmpty = false) :
    norm_path r.path ∈ (normalize_rules rules).2.1 ∨
    norm_path r.path ∈ (normalize_rules rules).2.2.2 := by
  rw [normalize_rules_eq]
  rcases nr_foldl_adds_direct rules r hm hne hr ([], [], [], []) with h | h
  · exact Or.inl ((mem_sort_dedup _ _).mpr h)
  · exact Or.inr ((mem_sort_dedup _ _).mpr h)

theorem push_process_rules_append (rules extra : List JVal) (p nms : List String)
    (o : String) :
    push_process_rules (rules ++ extra) p nms o
      = rules ++ push_process_rules extra p nms o := by
  unfold push_process_rules
  dsimp only
  cases hp : p.isEmpty <;> cases hn : nms.isEmpty <;> simp

theorem push_process_rules_base (p nms : List String) (o : String) :
    push_process_rules [] p nms o
      = (if p.isEmpty then [] else
          [.obj [("process_path", .arr (p.map .str)), ("outbound", .str o)]])
        ++ (if nms.isEmpty then [] else
          [.obj [("process_name", .arr (nms.map .str)), ("outbound", .str o)]]) := by
  unfold push_process_rules
  dsimp only
  cases hp : p.isEmpty <;> cases hn : nms.isEmpty <;> simp

theorem push_outbound_all (p nms : List String) (o : String) :
    ∀ r ∈ push_process_rules [] p nms o, jGet r "outbound" = some (.str o) := by
  intro r hr
  rw [push_process_rules_base] at hr
  rcases List.mem_append.mp hr with h | h
  · split at h
    · cases h
    · rw [List.mem_singleton] at h
      subst h
      rfl
  · split at h
    · cases h
    · rw [List.mem_singleton] at h
      subst h
      rfl

theorem proc_strings_path_rule (p : List String) (o : String) :
    proc_strings (.obj [("process_path", .arr (p.map .str)),
      ("outbound", .str o)]) = p := by
  unfold proc_strings
  have h1 : jGet (.obj [("process_path", JVal.arr (p.map .str)),
      ("outbound", .str o)]) "process_path" = some (.arr (p.map .str)) := rfl
  have h2 : jGet (.obj [("process_path", JVal.arr (p.map .str)),
      ("outbound", .str o)]) "process_name" = none := rfl
  rw [h1, h2]
  dsimp only
  rw [List.filterMap_map, List.append_nil]
  exact List.filterMap_some p

theorem proc_strings_name_rule (nms : List String) (o : String) :
    proc_strings (.obj [("process_name", .arr (nms.map .str)),
      ("outbound", .str o)]) = nms := by
  unfold proc_strings
  have h1 : jGet (.obj [("process_name", JVal.arr (nms.map .str)),
      ("outbound", .str o)]) "process_path" = none := rfl
  have h2 : jGet (.obj [("process_name", JVal.arr (nms.map .str)),
      ("outbound", .str o)]) "process_name" = some (.arr (nms.map .str)) := rfl
  rw [h1, h2]
  dsimp only
  rw [List.filterMap_map, List.nil_append]
  exact List.filterMap_some nms

theorem push_match_exists (p nms : List String) (o n : String)
    (hmem : n ∈ p ∨ n ∈ nms) :
    ∃ r ∈ push_process_rules [] p nms o, rule_matches_proc n r = true := by
  rw [push_process_rules_base]
  rcases hmem with h | h
  · refine ⟨.obj [("process_path", .arr (p.map .str)), ("outbound", .str o)],
      List.mem_append_left _ ?_, ?_⟩
    · rw [if_neg (by simp [List.isEmpty_iff]; exact List.ne_nil_of_mem h)]
      exact List.mem_singleton.mpr rfl
    · unfold rule_matches_proc
      rw [proc_strings_path_rule]
      exact List.elem_iff.mpr h
  · refine ⟨.obj [("process_name", .arr (nms.map .str)), ("outbound", .str o)],
      List.mem_append_right _ ?_, ?_⟩
    · rw [if_neg (by simp [List.isEmpty_iff]; exact List.ne_nil_of_mem h)]
      exact List.mem_singleton.mpr rfl
    · unfold rule_matches_proc
      rw [proc_strings_name_rule]
      exact List.elem_iff.mpr h

/-- First-match over a rule list `pre ++ (d ++ post)` where nothing in `pre`
matches, something in `d` matches, and everything in `d` routes to the same
outbound. -/
theorem first_match_direct (pre d post : List JVal) (n o : String)
    (hpre : pre.find? (rule_matches_proc n) = none)
    (hex : ∃ r ∈ d, rule_matches_proc n r = true)
    (hout : ∀ r ∈ d, jGet r "outbound" = some (.str o)) :
    first_match_outbound (pre ++ (d ++ post)) n = some (.str o) := by
  unfold first_match_outbound
  rw [List.find?_append, hpre, Option.none_or, List.find?_append]
  have hsome : (d.find? (rule_matches_proc n)).isSome := List.find?_isSome.mpr hex
  cases hfd : d.find? (rule_matches_proc n) with
  | none => rw [hfd] at hsome; cases hsome
  | some r =>
    show jGet r "outbound" = some (.str o)
    exact hout r (List.mem_of_find?_eq_some hfd)

theorem base_rules_no_match (n : String) :
    List.find? (rule_matches_proc n)
      [hijack_dns_rule,
       .obj [("domain_suffix", .arr [.str ".ru"]), ("outbound", .str "direct")],
       .obj [("rule_set", .arr [.str GEOIP_RU_TAG]), ("outbound", .str "direct")],
       local_inbound_rule] = none := rfl

theorem route_value_selected (rules : List AppRule) (rsl : Bool) (rp : String)
    (pp dp pn dn : List String)
    (hnr : normalize_rules rules = (pp, dp, pn, dn)) :
    route_value .selected rules rsl rp = .obj
      [("rules", .arr
          ([hijack_dns_rule,
            .obj [("domain_suffix", .arr [.str ".ru"]), ("outbound", .str "direct")],
            .obj [("rule_set", .arr [.str GEOIP_RU_TAG]), ("outbound", .str "direct")],
            local_inbound_rule]
           ++ (push_process_rules [] dp dn "direct"
               ++ push_process_rules [] pp pn "proxy"))),
       ("final", .str "direct"),
       ("auto_detect_interface", .bool true),
       ("rule_set", .arr [build_geoip_ru_rule_set rsl rp])] := by
  unfold route_value
  rw [hnr]
  dsimp only
  have e1 : push_process_rules
      (push_ru_bypass_rules [hijack_dns_rule] ++ [local_inbound_rule]) dp dn "direct"
      = (push_ru_bypass_rules [hijack_dns_rule] ++ [local_inbound_rule])
        ++ push_process_rules [] dp dn "direct" := by
    conv_lhs => rw [show push_ru_bypass_rules [hijack_dns_rule] ++ [local_inbound_rule]
      = (push_ru_bypass_rules [hijack_dns_rule] ++ [local_inbound_rule]) ++ [] from
        (List.append_nil _).symm]
    exact push_process_rules_append _ [] dp dn "direct"
  rw [e1, push_process_rules_append]
  have e3 : push_process_rules (push_process_rules [] dp dn "direct") pp pn "proxy"
      = push_process_rules [] dp dn "direct" ++ push_process_rules [] pp pn "proxy" := by
    conv_lhs => rw [show push_process_rules [] dp dn "direct"
      = push_process_rules [] dp dn "direct" ++ [] from (List.append_nil _).symm]
    exact push_process_rules_append _ [] pp pn "proxy"
  rw [e3]
  rfl

/-- **C2**: in Selected mode every successfully generated config carries a
route section whose rules are, in order: the hijack-dns rule on port 53,
the `.ru` domain-suffix bypass to `direct`, the geoip rule-set bypass to
`direct`, the local-mixed-inbound rule to `proxy`, then the process rules
routing Direct-mode apps to `direct`, then the process rules routing
Proxy-mode apps to `proxy`; the final fallback outbound is `direct`, and an
application listed under both modes resolves to `direct` by first-match. -/
theorem c2_selected_route (profile : JVal) (act : Option String) (rsl : Bool)
    (lp rp : String) (rules : List AppRule) (cfg : JVal)
    (hbc : build_config profile act rsl lp rp .selected rules = .ok cfg) :
    ∃ procDirect procProxy,
      procDirect = push_process_rules [] (normalize_rules rules).2.1
        (normalize_rules rules).2.2.2 "direct" ∧
      procProxy = push_process_rules [] (normalize_rules rules).1
        (normalize_rules rules).2.2.1 "proxy" ∧
      jGet cfg "route" = some (.obj
        [("rules", .arr
            ([hijack_dns_rule,
              .obj [("domain_suffix", .arr [.str ".ru"]), ("outbound", .str "direct")],
              .obj [("rule_set", .arr [.str GEOIP_RU_TAG]), ("outbound", .str "direct")],
              local_inbound_rule] ++ (procDirect ++ procProxy))),
         ("final", .str "direct"),
         ("auto_detect_interface", .bool true),
         ("rule_set", .arr [build_geoip_ru_rule_set rsl rp])]) ∧
      (∀ r ∈ procDirect, jGet r "outbound" = some (.str "direct")) ∧
      (∀ r ∈ procProxy, jGet r "outbound" = some (.str "proxy")) ∧
      (∀ n r1 r2, r1 ∈ rules → r2 ∈ rules → r1.mode = .direct → r2.mode = .proxy →
        norm_path r1.path = n → norm_path r2.path = n → n.isEmpty = false →
        first_match_outbound
          ([hijack_dns_rule,
            .obj [("domain_suffix", .arr [.str ".ru"]), ("outbound", .str "direct")],
            .obj [("rule_set", .arr [.str GEOIP_RU_TAG]), ("outbound", .str "direct")],
            local_inbound_rule] ++ (procDirect ++ procProxy)) n
          = some (.str "direct")) := by
  obtain ⟨fields, outs, outs1, tags1, hpr, hlk, hne, hsy, hcfg⟩ := build_config_ok_inv hbc
  rcases hnr : normalize_rules rules with ⟨pp, dp, pn, dn⟩
  refine ⟨push_process_rules [] dp dn "direct", push_process_rules [] pp pn "proxy",
    rfl, rfl, ?_, push_outbound_all dp dn "direct",
    push_outbound_all pp pn "proxy", ?_⟩
  · rw [hcfg, assemble_config_route_on fields _ rsl lp rp .selected rules
      (fun h => ProxyMode.noConfusion h)]
    rw [route_value_selected rules rsl rp pp dp pn dn hnr]
  · intro n r1 r2 h1 h2 hm1 hm2 hp1 hp2 hnemp
    have hd : n ∈ dp ∨ n ∈ dn := by
      have hmem := normalize_mem_direct rules r1 h1 hm1 (by rw [hp1]; exact hnemp)
      rw [hnr, hp1] at hmem
      exact hmem
    exact first_match_direct _ _ _ n "direct" (base_rules_no_match n)
      (push_match_exists dp dn "direct" n hd) (push_outbound_all dp dn "direct")

theorem c2_selected_route_witness :
    ∃ procDirect procProxy,
      procDirect = push_process_rules [] (normalize_rules c2wRules).2.1
        (normalize_rules c2wRules).2.2.2 "direct" ∧
      procProxy = push_process_rules [] (normalize_rules c2wRules).1
        (normalize_rules c2wRules).2.2.1 "proxy" ∧
      jGet (okOr (build_config c2wProfile none true "log.txt" "rs.srs"
          .selected c2wRules)) "route" = some (.obj
        [("rules", .arr
            ([hijack_dns_rule,
              .obj [("domain_suffix", .arr [.str ".ru"]), ("outbound", .str "direct")],
              .obj [("rule_set", .arr [.str GEOIP_RU_TAG]), ("outbound", .str "direct")],
              local_inbound_rule] ++ (procDirect ++ procProxy))),
         ("final", .str "direct"),
         ("auto_detect_interface", .bool true),
         ("rule_set", .arr [build_geoip_ru_rule_set true "rs.srs"])]) ∧
      (∀ r ∈ procDirect, jGet r "outbound" = some (.str "direct")) ∧
      (∀ r ∈ procProxy, jGet r "outbound" = some (.str "proxy")) ∧
      (∀ n r1 r2, r1 ∈ c2wRules → r2 ∈ c2wRules → r1.mode = .direct →
        r2.mode = .proxy → norm_path r1.path = n → norm_path r2.path = n →
        n.isEmpty = false →
        first_match_outbound
          ([hijack_dns_rule,
            .obj [("domain_suffix", .arr [.str ".ru"]), ("outbound", .str "direct")],
            .obj [("rule_set", .arr [.str GEOIP_RU_TAG]), ("outbound", .str "direct")],
            local_inbound_rule] ++ (procDirect ++ procProxy)) n
          = some (.str "direct")) :=
  c2_selected_route c2wProfile none true "log.txt" "rs.srs" c2wRules
    (okOr (build_config c2wProfile none true "log.txt" "rs.srs" .selected c2wRules))
    rfl

/-! ## Base64 roundtrip lemmas (C9) -/

theorem sextets_lt : ∀ bs : List Nat, (∀ b ∈ bs, b < 256) →
    ∀ v ∈ sextets bs, v < 64
  | [], _, _, hv => by cases hv
  | [a], h, v, hv => by
    have ha : a < 256 := h a (List.mem_singleton.mpr rfl)
    unfold sextets at hv
    rcases List.mem_cons.mp hv with rfl | hv
    · omega
    · rcases List.mem_singleton.mp hv with rfl
      omega
  | [a, b], h, v, hv => by
    have ha : a < 256 := h a (by simp)
    have hbb : b < 256 := h b (by simp)
    unfold sextets at hv
    rcases List.mem_cons.mp hv with rfl | hv
    · omega
    · rcases List.mem_cons.mp hv with rfl | hv
      · omega
      · rcases List.mem_singleton.mp hv with rfl
        omega
  | a :: b :: c :: rest, h, v, hv => by
    have ha : a < 256 := h a (by simp)
    have hbb : b < 256 := h b (by simp)
    have hc : c < 256 := h c (by simp)
    unfold sextets at hv
    rcases List.mem_cons.mp hv with rfl | hv
    · omega
    · rcases List.mem_cons.mp hv with rfl | hv
      · omega
      · rcases List.mem_cons.mp hv with rfl | hv
        · omega
        · rcases List.mem_cons.mp hv with rfl | hv
          · omega
          · exact sextets_lt rest (fun x hx => h x (by simp [hx])) v hv

theorem sextets_len : ∀ bs : List Nat,
    (sextets bs).length = bs.length + (bs.length + 2) / 3
  | [] => rfl
  | [_] => by simp only [sextets, List.length_cons, List.length_nil]
  | [_, _] => by simp only [sextets, List.length_cons, List.length_nil]
  | a :: b :: c :: rest => by
    unfold sextets
    simp only [List.length_cons]
    rw [sextets_len rest]
    omega

theorem unsextets_sextets : ∀ bs : List Nat, (∀ b ∈ bs, b < 256) →
    unsextets (sextets bs) = some bs
  | [], _ => rfl
  | [a], h => by
    have ha : a < 256 := h a (by simp)
    show unsextets [a / 4, a % 4 * 16] = some [a]
    unfold unsextets
    rw [if_pos (by omega)]
    congr 1
    congr 1
    omega
  | [a, b], h => by
    have ha : a < 256 := h a (by simp)
    have hbb : b < 256 := h b (by simp)
    show unsextets [a / 4, a % 4 * 16 + b / 16, b % 16 * 4] = some [a, b]
    unfold unsextets
    rw [if_pos (by omega)]
    congr 1
    congr 1
    · omega
    · congr 1
      omega
  | a :: b :: c :: rest, h => by
    have ha : a < 256 := h a (by simp)
    have hbb : b < 256 := h b (by simp)
    have hc : c < 256 := h c (by simp)
    show unsextets (_ :: _ :: _ :: _ :: sextets rest) = _
    unfold unsextets
    rw [unsextets_sextets rest (fun x hx => h x (by simp [hx]))]
    show some (_ :: _ :: _ :: rest) = some (a :: b :: c :: rest)
    congr 1
    congr 1
    · omega
    · congr 1
      · omega
      · congr 1
        omega

theorem url_dec_url_enc : ∀ v, v < 64 → url_dec_char (url_enc_char v) = some v := by
  decide

theorem std_dec_std_enc : ∀ v, v < 64 → std_dec_char (std_enc_char v) = some v := by
  decide

/-- Decoding a standard-alphabet character with the URL-safe table either
recovers the same value (shared characters) or fails (`+`, `/`). -/
theorem url_dec_std_enc : ∀ v, v < 64 →
    url_dec_char (std_enc_char v) = some v ∨ url_dec_char (std_enc_char v) = none := by
  decide

theorem url_enc_ne_pad : ∀ v, v < 64 → ¬(url_enc_char v = '=') := by decide

theorem std_enc_ne_pad : ∀ v, v < 64 → ¬(std_enc_char v = '=') := by decide

theorem url_enc_not_ws : ∀ v, v < 64 → (url_enc_char v).isWhitespace = false := by
  decide

theorem std_enc_not_ws : ∀ v, v < 64 → (std_enc_char v).isWhitespace = false := by
  decide

theorem dec_chars_map (dec : Char → Option Nat) (enc : Nat → Char) :
    ∀ sx : List Nat, (∀ v ∈ sx, dec (enc v) = some v) →
    dec_chars dec (sx.map enc) = some sx
  | [], _ => rfl
  | v :: rest, h => by
    rw [List.map_cons]
    unfold dec_chars
    rw [h v (by simp)]
    rw [dec_chars_map dec enc rest (fun u hu => h u (by simp [hu]))]
    rfl

theorem dec_chars_map_partial (dec : Char → Option Nat) (enc : Nat → Char) :
    ∀ (sx out : List Nat), (∀ v ∈ sx, ∀ w, dec (enc v) = some w → w = v) →
    dec_chars dec (sx.map enc) = some out → out = sx
  | [], out, _, h => by
    rw [List.map_nil] at h
    exact (Option.some.inj h).symm
  | v :: rest, out, hg, h => by
    rw [List.map_cons] at h
    unfold dec_chars at h
    cases hd : dec (enc v) with
    | none => rw [hd] at h; cases h
    | some w =>
      rw [hd] at h
      dsimp only at h
      cases hrest : dec_chars dec (rest.map enc) with
      | none => rw [hrest] at h; cases h
      | some os =>
        rw [hrest] at h
        rw [Option.map_some'] at h
        have hw : w = v := hg v (by simp) w hd
        have hos : os = rest := dec_chars_map_partial dec enc rest os
          (fun u hu => hg u (by simp [hu])) hrest
        rw [← Option.some.inj h, hw, hos]

theorem dec_chars_none_of_mem (dec : Char → Option Nat) :
    ∀ s : List Char, ∀ c ∈ s, dec c = none → dec_chars dec s = none
  | [], c, hc, _ => by cases hc
  | x :: rest, c, hc, hd => by
    unfold dec_chars
    rcases List.mem_cons.mp hc with rfl | hmem
    · rw [hd]
    · cases hx : dec x with
      | none => rfl
      | some w => rw [dec_chars_none_of_mem dec rest c hmem hd]; rfl

theorem dropWhile_all_false (p : Char → Bool) :
    ∀ s : List Char, (∀ c ∈ s, p c = false) → s.dropWhile p = s
  | [], _ => rfl
  | x :: rest, h => by
    rw [List.dropWhile_cons, if_neg (by rw [h x (by simp)]; exact Bool.false_ne_true)]

theorem rust_trim_id (s : List Char) (h : ∀ c ∈ s, c.isWhitespace = false) :
    rust_trim_chars s = s := by
  unfold rust_trim_chars
  rw [dropWhile_all_false _ s h,
    dropWhile_all_false _ s.reverse (fun c hc => h c (List.mem_reverse.mp hc)),
    List.reverse_reverse]

theorem takeWhile_nil_of_all (p : Char → Bool) :
    ∀ s : List Char, (∀ c ∈ s, p c = false) → s.takeWhile p = []
  | [], _ => rfl
  | x :: rest, h => by
    rw [List.takeWhile_cons, if_neg (by rw [h x (by simp)]; exact Bool.false_ne_true)]

theorem takeWhile_replicate_append (p : Char → Bool) (c : Char) (hp : p c = true) :
    ∀ (k : Nat) (r : List Char),
      (List.replicate k c ++ r).takeWhile p = List.replicate k c ++ r.takeWhile p
  | 0, r => by simp
  | k + 1, r => by
    rw [List.replicate_succ, List.cons_append, List.takeWhile_cons, if_pos hp,
      takeWhile_replicate_append p c hp k r, List.cons_append]

theorem count_trailing_eq_append (l : List Char) (k : Nat)
    (hl : ∀ c ∈ l, ¬(c = '=')) :
    count_trailing_eq (l ++ List.replicate k '=') = k := by
  unfold count_trailing_eq
  rw [List.reverse_append, List.reverse_replicate,
    takeWhile_replicate_append _ '=' rfl,
    takeWhile_nil_of_all _ l.reverse
      (fun c hc => beq_eq_false_iff_ne.mpr (hl c (List.mem_reverse.mp hc))),
    List.append_nil, List.length_replicate]

theorem count_trailing_eq_zero (l : List Char) (hl : ∀ c ∈ l, ¬(c = '=')) :
    count_trailing_eq l = 0 := by
  have h := count_trailing_eq_append l 0 hl
  rw [List.replicate_zero, List.append_nil] at h
  exact h

theorem add_padding_self (s : List Char) (h : s.length % 4 = 0) :
    add_padding s = s := if_pos h

theorem add_padding_pad (s : List Char) (h : ¬(s.length % 4 = 0)) :
    add_padding s = s ++ List.replicate (4 - s.length % 4) '=' := if_neg h

theorem add_padding_mod (s : List Char) : (add_padding s).length % 4 = 0 := by
  unfold add_padding
  by_cases h : s.length % 4 = 0
  · rw [if_pos h]; exact h
  · rw [if_neg h]
    simp only [List.length_append, List.length_replicate]
    omega

theorem decode_no_pad_encode (dec : Char → Option Nat) (enc : Nat → Char)
    (hde : ∀ v, v < 64 → dec (enc v) = some v) (bs : List Nat)
    (hb : ∀ b ∈ bs, b < 256) :
    decode_no_pad dec (encode_no_pad enc bs) = some bs := by
  unfold decode_no_pad encode_no_pad
  rw [dec_chars_map dec enc (sextets bs)
    (fun v hv => hde v (sextets_lt bs hb v hv))]
  exact unsextets_sextets bs hb

theorem decode_padded_bad_len (dec : Char → Option Nat) (s : List Char)
    (h : ¬(s.length % 4 = 0)) : decode_padded dec s = none := by
  unfold decode_padded
  rw [if_pos h]

/-- A padding engine on `l ++ "="*k` (no `=` inside `l`, `k ≤ 2`, total
length a multiple of 4) decodes exactly as the no-padding engine on `l`. -/
theorem decode_padded_append (dec : Char → Option Nat) (l : List Char)
    (k : Nat) (hl : ∀ c ∈ l, ¬(c = '=')) (hk : k ≤ 2)
    (hlen : (l.length + k) % 4 = 0) :
    decode_padded dec (l ++ List.replicate k '=') = decode_no_pad dec l := by
  unfold decode_padded
  have hlen' : (l ++ List.replicate k '=').length = l.length + k := by
    simp
  rw [hlen']
  rw [if_neg (by omega)]
  rw [count_trailing_eq_append l k hl]
  rw [if_neg (by omega)]
  rw [show l.length + k - k = l.length from by omega]
  rw [List.take_left l (List.replicate k '=')]

theorem decode_padded_no_pad_chars (dec : Char → Option Nat) (s : List Char)
    (hs : ∀ c ∈ s, ¬(c = '=')) (h0 : s.length % 4 = 0) :
    decode_padded dec s = decode_no_pad dec s := by
  unfold decode_padded
  rw [if_neg (by omega)]
  rw [count_trailing_eq_zero s hs]
  rw [if_neg (by omega)]
  rw [Nat.sub_zero, List.take_length]

theorem try_engine_some (e : B64Engine) (s : List Char) (bs : List Nat)
    (hd : engine_decode e s = some bs) (hu : utf8_valid bs = true) :
    try_engine_decode e s = some bs := by
  unfold try_engine_decode
  rw [hd]
  dsimp only
  rw [if_pos hu]

theorem try_engine_none (e : B64Engine) (s : List Char)
    (hd : engine_decode e s = none) : try_engine_decode e s = none := by
  unfold try_engine_decode
  rw [hd]

theorem try_candidate_eq (c : List Char) :
    try_candidate c =
      (try_both .urlNoPad c).orElse fun _ =>
        (try_both .urlPad c).orElse fun _ =>
          (try_both .stdNoPad c).orElse fun _ => try_both .stdPad c := rfl

theorem try_both_some (e : B64Engine) (c : List Char) (bs : List Nat)
    (h : try_engine_decode e c = some bs) : try_both e c = some bs := by
  unfold try_both
  rw [h]
  rfl

theorem try_both_none (e : B64Engine) (c : List Char)
    (h1 : try_engine_decode e c = none)
    (h2 : try_engine_decode e (add_padding c) = none) : try_both e c = none := by
  unfold try_both
  rw [h1, h2]
  show (if c = add_padding c then none else none) = none
  split <;> rfl

theorem decode_of_candidate (input : List Char) (bs : List Nat)
    (h : try_candidate (rust_trim_chars input) = some bs) :
    decode_base64_to_string input = .ok bs := by
  unfold decode_base64_to_string
  dsimp only
  rw [h]

theorem orElse_none_arg {α : Type} (f : Unit → Option α) :
    Option.orElse none f = f () := rfl

theorem orElse_some_arg {α : Type} (a : α) (f : Unit → Option α) :
    Option.orElse (some a) f = some a := rfl

theorem roundtrip_url_raw (bs : List Nat) (hb : ∀ b ∈ bs, b < 256)
    (hu : utf8_valid bs = true) :
    decode_base64_to_string (encode_no_pad url_enc_char bs) = .ok bs := by
  have hsl : ∀ v ∈ sextets bs, v < 64 := sextets_lt bs hb
  have hws : ∀ c ∈ encode_no_pad url_enc_char bs, c.isWhitespace = false := by
    intro c hc
    unfold encode_no_pad at hc
    obtain ⟨v, hv, rfl⟩ := List.mem_map.mp hc
    exact url_enc_not_ws v (hsl v hv)
  have hdecU : decode_no_pad url_dec_char (encode_no_pad url_enc_char bs) = some bs :=
    decode_no_pad_encode _ _ url_dec_url_enc bs hb
  apply decode_of_candidate
  rw [rust_trim_id _ hws, try_candidate_eq,
    try_both_some .urlNoPad _ bs (try_engine_some _ _ _ hdecU hu)]
  rfl

theorem roundtrip_std_raw (bs : List Nat) (hb : ∀ b ∈ bs, b < 256)
    (hu : utf8_valid bs = true) :
    decode_base64_to_string (encode_no_pad std_enc_char bs) = .ok bs := by
  have hsl : ∀ v ∈ sextets bs, v < 64 := sextets_lt bs hb
  have hws : ∀ c ∈ encode_no_pad std_enc_char bs, c.isWhitespace = false := by
    intro c hc
    unfold encode_no_pad at hc
    obtain ⟨v, hv, rfl⟩ := List.mem_map.mp hc
    exact std_enc_not_ws v (hsl v hv)
  have hne : ∀ c ∈ encode_no_pad std_enc_char bs, ¬(c = '=') := by
    intro c hc
    unfold encode_no_pad at hc
    obtain ⟨v, hv, rfl⟩ := List.mem_map.mp hc
    exact std_enc_ne_pad v (hsl v hv)
  have hlS : (encode_no_pad std_enc_char bs).length = bs.length + (bs.length + 2) / 3 := by
    unfold encode_no_pad
    rw [List.length_map, sextets_len]
  have hdecS : decode_no_pad std_dec_char (encode_no_pad std_enc_char bs) = some bs :=
    decode_no_pad_encode _ _ std_dec_std_enc bs hb
  apply decode_of_candidate
  rw [rust_trim_id _ hws, try_candidate_eq]
  cases hdc : dec_chars url_dec_char (encode_no_pad std_enc_char bs) with
  | some vs =>
    have hvs : vs = sextets bs := by
      apply dec_chars_map_partial url_dec_char std_enc_char (sextets bs) vs
      · intro v hv w hw
        rcases url_dec_std_enc v (hsl v hv) with h | h
        · rw [h] at hw
          exact (Option.some.inj hw).symm
        · rw [h] at hw
          cases hw
      · exact hdc
    have hraw : engine_decode .urlNoPad (encode_no_pad std_enc_char bs) = some bs := by
      show decode_no_pad url_dec_char _ = some bs
      unfold decode_no_pad
      rw [hdc, hvs]
      exact unsextets_sextets bs hb
    rw [try_both_some .urlNoPad _ bs (try_engine_some _ _ _ hraw hu)]
    rfl
  | none =>
    have hrawU : try_engine_decode .urlNoPad (encode_no_pad std_enc_char bs) = none := by
      apply try_engine_none
      show decode_no_pad url_dec_char _ = none
      unfold decode_no_pad
      rw [hdc]
      rfl
    have ht1 : try_both .urlNoPad (encode_no_pad std_enc_char bs) = none := by
      apply try_both_none _ _ hrawU
      by_cases h0 : (encode_no_pad std_enc_char bs).length % 4 = 0
      · rw [add_padding_self _ h0]
        exact hrawU
      · rw [add_padding_pad _ h0]
        apply try_engine_none
        show decode_no_pad url_dec_char _ = none
        unfold decode_no_pad
        rw [dec_chars_none_of_mem url_dec_char _ '='
          (List.mem_append_right _ (List.mem_replicate.mpr ⟨by omega, rfl⟩)) rfl]
        rfl
    have ht2 : try_both .urlPad (encode_no_pad std_enc_char bs) = none := by
      have hrawP : try_engine_decode .urlPad (encode_no_pad std_enc_char bs) = none := by
        apply try_engine_none
        show decode_padded url_dec_char _ = none
        by_cases h0 : (encode_no_pad std_enc_char bs).length % 4 = 0
        · rw [decode_padded_no_pad_chars _ _ hne h0]
          unfold decode_no_pad
          rw [hdc]
          rfl
        · exact decode_padded_bad_len _ _ h0
      apply try_both_none _ _ hrawP
      by_cases h0 : (encode_no_pad std_enc_char bs).length % 4 = 0
      · rw [add_padding_self _ h0]
        exact hrawP
      · rw [add_padding_pad _ h0]
        apply try_engine_none
        show decode_padded url_dec_char _ = none
        rw [decode_padded_append url_dec_char _ _ hne (by omega) (by omega)]
        unfold decode_no_pad
        rw [hdc]
        rfl
    have ht3 : try_both .stdNoPad (encode_no_pad std_enc_char bs) = some bs :=
      try_both_some _ _ _ (try_engine_some _ _ _ hdecS hu)
    rw [ht1, orElse_none_arg, ht2, orElse_none_arg, ht3]
    rfl

theorem roundtrip_url_padded (bs : List Nat) (hb : ∀ b ∈ bs, b < 256)
    (hu : utf8_valid bs = true) :
    decode_base64_to_string (add_padding (encode_no_pad url_enc_char bs)) = .ok bs := by
  by_cases h0 : (encode_no_pad url_enc_char bs).length % 4 = 0
  · rw [add_padding_self _ h0]
    exact roundtrip_url_raw bs hb hu
  · have hsl : ∀ v ∈ sextets bs, v < 64 := sextets_lt bs hb
    have hws : ∀ c ∈ encode_no_pad url_enc_char bs, c.isWhitespace = false := by
      intro c hc
      unfold encode_no_pad at hc
      obtain ⟨v, hv, rfl⟩ := List.mem_map.mp hc
      exact url_enc_not_ws v (hsl v hv)
    have hne : ∀ c ∈ encode_no_pad url_enc_char bs, ¬(c = '=') := by
      intro c hc
      unfold encode_no_pad at hc
      obtain ⟨v, hv, rfl⟩ := List.mem_map.mp hc
      exact url_enc_ne_pad v (hsl v hv)
    have hlU : (encode_no_pad url_enc_char bs).length
        = bs.length + (bs.length + 2) / 3 := by
      unfold encode_no_pad
      rw [List.length_map, sextets_len]
    have hdecU : decode_no_pad url_dec_char (encode_no_pad url_enc_char bs)
        = some bs := decode_no_pad_encode _ _ url_dec_url_enc bs hb
    rw [add_padding_pad _ h0]
    have hlen2 : (encode_no_pad url_enc_char bs
        ++ List.replicate (4 - (encode_no_pad url_enc_char bs).length % 4) '=').length
        % 4 = 0 := by
      simp only [List.length_append, List.length_replicate]
      omega
    have hpad2 : add_padding (encode_no_pad url_enc_char bs
        ++ List.replicate (4 - (encode_no_pad url_enc_char bs).length % 4) '=')
        = encode_no_pad url_enc_char bs
          ++ List.replicate (4 - (encode_no_pad url_enc_char bs).length % 4) '=' :=
      add_padding_self _ hlen2
    apply decode_of_candidate
    have hwsp : ∀ c ∈ encode_no_pad url_enc_char bs
        ++ List.replicate (4 - (encode_no_pad url_enc_char bs).length % 4) '=',
        c.isWhitespace = false := by
      intro c hc
      rcases List.mem_append.mp hc with h | h
      · exact hws c h
      · rw [(List.mem_replicate.mp h).2]
        rfl
    rw [rust_trim_id _ hwsp, try_candidate_eq]
    have hraw1 : try_engine_decode .urlNoPad (encode_no_pad url_enc_char bs
        ++ List.replicate (4 - (encode_no_pad url_enc_char bs).length % 4) '=')
        = none := by
      apply try_engine_none
      show decode_no_pad url_dec_char _ = none
      unfold decode_no_pad
      rw [dec_chars_none_of_mem url_dec_char _ '='
        (List.mem_append_right _ (List.mem_replicate.mpr ⟨by omega, rfl⟩)) rfl]
      rfl
    have ht1 : try_both .urlNoPad (encode_no_pad url_enc_char bs
        ++ List.replicate (4 - (encode_no_pad url_enc_char bs).length % 4) '=')
        = none := by
      apply try_both_none _ _ hraw1
      rw [hpad2]
      exact hraw1
    have ht2 : try_both .urlPad (encode_no_pad url_enc_char bs
        ++ List.replicate (4 - (encode_no_pad url_enc_char bs).length % 4) '=')
        = some bs := by
      apply try_both_some
      apply try_engine_some _ _ _ _ hu
      show decode_padded url_dec_char _ = some bs
      rw [decode_padded_append url_dec_char _ _ hne (by omega) (by omega)]
      exact hdecU
    rw [ht1, orElse_none_arg, ht2]
    rfl

theorem roundtrip_std_padded (bs : List Nat) (hb : ∀ b ∈ bs, b < 256)
    (hu : utf8_valid bs = true) :
    decode_base64_to_string (add_padding (encode_no_pad std_enc_char bs)) = .ok bs := by
  by_cases h0 : (encode_no_pad std_enc_char bs).length % 4 = 0
  · rw [add_padding_self _ h0]
    exact roundtrip_std_raw bs hb hu
  · have hsl : ∀ v ∈ sextets bs, v < 64 := sextets_lt bs hb
    have hws : ∀ c ∈ encode_no_pad std_enc_char bs, c.isWhitespace = false := by
      intro c hc
      unfold encode_no_pad at hc
      obtain ⟨v, hv, rfl⟩ := List.mem_map.mp hc
      exact std_enc_not_ws v (hsl v hv)
    have hne : ∀ c ∈ encode_no_pad std_enc_char bs, ¬(c = '=') := by
      intro c hc
      unfold encode_no_pad at hc
      obtain ⟨v, hv, rfl⟩ := List.mem_map.mp hc
      exact std_enc_ne_pad v (hsl v hv)
    have hlS : (encode_no_pad std_enc_char bs).length
        = bs.length + (bs.length + 2) / 3 := by
      unfold encode_no_pad
      rw [List.length_map, sextets_len]
    have hdecS : decode_no_pad std_dec_char (encode_no_pad std_enc_char bs)
        = some bs := decode_no_pad_encode _ _ std_dec_std_enc bs hb
    rw [add_padding_pad _ h0]
    have hlen2 : (encode_no_pad std_enc_char bs
        ++ List.replicate (4 - (encode_no_pad std_enc_char bs).length % 4) '=').length
        % 4 = 0 := by
      simp only [List.length_append, List.length_replicate]
      omega
    have hpad2 : add_padding (encode_no_pad std_enc_char bs
        ++ List.replicate (4 - (encode_no_pad std_enc_char bs).length % 4) '=')
        = encode_no_pad std_enc_char bs
          ++ List.replicate (4 - (encode_no_pad std_enc_char bs).length % 4) '=' :=
      add_padding_self _ hlen2
    apply decode_of_candidate
    have hwsp : ∀ c ∈ encode_no_pad std_enc_char bs
        ++ List.replicate (4 - (encode_no_pad std_enc_char bs).length % 4) '=',
        c.isWhitespace = false := by
      intro c hc
      rcases List.mem_append.mp hc with h | h
      · exact hws c h
      · rw [(List.mem_replicate.mp h).2]
        rfl
    rw [rust_trim_id _ hwsp, try_candidate_eq]
    have hraw1 : try_engine_decode .urlNoPad (encode_no_pad std_enc_char bs
        ++ List.replicate (4 - (encode_no_pad std_enc_char bs).length % 4) '=')
        = none := by
      apply try_engine_none
      show decode_no_pad url_dec_char _ = none
      unfold decode_no_pad
      rw [dec_chars_none_of_mem url_dec_char _ '='
        (List.mem_append_right _ (List.mem_replicate.mpr ⟨by omega, rfl⟩)) rfl]
      rfl
    have ht1 : try_both .urlNoPad (encode_no_pad std_enc_char bs
        ++ List.replicate (4 - (encode_no_pad std_enc_char bs).length % 4) '=')
        = none := by
      apply try_both_none _ _ hraw1
      rw [hpad2]
      exact hraw1
    have hpadded_eq : decode_padded url_dec_char (encode_no_pad std_enc_char bs
        ++ List.replicate (4 - (encode_no_pad std_enc_char bs).length % 4) '=')
        = decode_no_pad url_dec_char (encode_no_pad std_enc_char bs) :=
      decode_padded_append url_dec_char _ _ hne (by omega) (by omega)
    cases hdc : dec_chars url_dec_char (encode_no_pad std_enc_char bs) with
    | some vs =>
      have hvs : vs = sextets bs := by
        apply dec_chars_map_partial url_dec_char std_enc_char (sextets bs) vs
        · intro v hv w hw
          rcases url_dec_std_enc v (hsl v hv) with h | h
          · rw [h] at hw
            exact (Option.some.inj hw).symm
          · rw [h] at hw
            cases hw
        · exact hdc
      have ht2 : try_both .urlPad (encode_no_pad std_enc_char bs
          ++ List.replicate (4 - (encode_no_pad std_enc_char bs).length % 4) '=')
          = some bs := by
        apply try_both_some
        apply try_engine_some _ _ _ _ hu
        show decode_padded url_dec_char _ = some bs
        rw [hpadded_eq]
        unfold decode_no_pad
        rw [hdc, hvs]
        exact unsextets_sextets bs hb
      rw [ht1, orElse_none_arg, ht2]
      rfl
    | none =>
      have hnpU : decode_no_pad url_dec_char (encode_no_pad std_enc_char bs)
          = none := by
        unfold decode_no_pad
        rw [hdc]
        rfl
      have ht2 : try_both .urlPad (encode_no_pad std_enc_char bs
          ++ List.replicate (4 - (encode_no_pad std_enc_char bs).length % 4) '=')
          = none := by
        have hraw : try_engine_decode .urlPad (encode_no_pad std_enc_char bs
            ++ List.replicate (4 - (encode_no_pad std_enc_char bs).length % 4) '=')
            = none := by
          apply try_engine_none
          show decode_padded url_dec_char _ = none
          rw [hpadded_eq]
          exact hnpU
        apply try_both_none _ _ hraw
        rw [hpad2]
        exact hraw
      have ht3 : try_both .stdNoPad (encode_no_pad std_enc_char bs
          ++ List.replicate (4 - (encode_no_pad std_enc_char bs).length % 4) '=')
          = none := by
        have hraw : try_engine_decode .stdNoPad (encode_no_pad std_enc_char bs
            ++ List.replicate (4 - (encode_no_pad std_enc_char bs).length % 4) '=')
            = none := by
          apply try_engine_none
          show decode_no_pad std_dec_char _ = none
          unfold decode_no_pad
          rw [dec_chars_none_of_mem std_dec_char _ '='
            (List.mem_append_right _ (List.mem_replicate.mpr ⟨by omega, rfl⟩)) rfl]
          rfl
        apply try_both_none _ _ hraw
        rw [hpad2]
        exact hraw
      have ht4 : try_both .stdPad (encode_no_pad std_enc_char bs
          ++ List.replicate (4 - (encode_no_pad std_enc_char bs).length % 4) '=')
          = some bs := by
        apply try_both_some
        apply try_engine_some _ _ _ _ hu
        show decode_padded std_dec_char _ = some bs
        rw [decode_padded_append std_dec_char _ _ hne (by omega) (by omega)]
        exact hdecS
      rw [ht1, orElse_none_arg, ht2, orElse_none_arg, ht3, orElse_none_arg, ht4]

/-- **C9**: for every valid-UTF-8 byte sequence (the bytes of a UTF-8
string), the tolerant decoder applied to each of the four base64 variants
used by the importer — standard or URL-safe alphabet, each with or without
padding — succeeds and returns exactly those bytes. -/
theorem c9_base64_roundtrip (bs : List Nat) (hb : ∀ b ∈ bs, b < 256)
    (hu : utf8_valid bs = true) :
    decode_base64_to_string (encode_padded std_enc_char bs) = .ok bs ∧
    decode_base64_to_string (encode_no_pad std_enc_char bs) = .ok bs ∧
    decode_base64_to_string (encode_padded url_enc_char bs) = .ok bs ∧
    decode_base64_to_string (encode_no_pad url_enc_char bs) = .ok bs :=
  ⟨roundtrip_std_padded bs hb hu, roundtrip_std_raw bs hb hu,
   roundtrip_url_padded bs hb hu, roundtrip_url_raw bs hb hu⟩

theorem c9_base64_roundtrip_witness :
    (∀ b ∈ [104, 105, 126, 33], b < 256) ∧
    utf8_valid [104, 105, 126, 33] = true ∧
    (decode_base64_to_string (encode_padded std_enc_char [104, 105, 126, 33])
        = .ok [104, 105, 126, 33] ∧
     decode_base64_to_string (encode_no_pad std_enc_char [104, 105, 126, 33])
        = .ok [104, 105, 126, 33] ∧
     decode_base64_to_string (encode_padded url_enc_char [104, 105, 126, 33])
        = .ok [104, 105, 126, 33] ∧
     decode_base64_to_string (encode_no_pad url_enc_char [104, 105, 126, 33])
        = .ok [104, 105, 126, 33]) :=
  ⟨by decide, by decide,
   c9_base64_roundtrip [104, 105, 126, 33] (by decide) (by decide)⟩
